import Mathlib

/-!
Verification development for the Pintos project-4 filesystem core
(src/filesys/inode.c, src/filesys/inode.h, src/filesys/filesys.c).

The C code is shallowly embedded:
* `InodeDisk` mirrors `struct inode_disk` (inode.h); the fixed C arrays
  `direct[12]`, `indirect[1]`, `dindirect[1]` are modelled as functions
  `Nat → Nat` (the code only ever indexes them in range).
* The block device is modelled by `dmap : Nat → Nat → Nat`, giving the
  content of each sector as a function from cell index to stored value:
  index below 128 for the 32-bit pointer cells of an indirect block,
  index below 512 for the bytes of a data sector.  Writes of whole inode
  records (`block_write (fs_device, dinode->sector, dinode)`) are kept in a
  second view `dinodes : Nat → InodeDisk`.
* `free_map_allocate` lives in free-map.c, which is not part of the sources;
  following the specification (a bitmap allocator that either yields a fresh
  sector or fails with NoSpace) it is modelled by an oracle
  `A : Nat → Option Nat` consulted at the k-th allocation call.  The C
  callers in `dinode_extend` discard its boolean result, and the model
  likewise drops the flag component.
* `off_t` is a 32-bit signed int and `size_t` a 32-bit unsigned int on the
  Pintos x86 target; the unsigned subtraction in `dinode_extend` is
  reproduced exactly with `sub32`, and conversion back to `off_t` with
  `toInt32`.
* The C `while` loops are written as fuel-indexed structural recursions;
  every call site passes fuel that dominates the loop's iteration count for
  all states the theorems quantify over, so the fuel never runs out there.
-/

/-! Size attributes from inode.h. -/

def BLOCK_SECTOR_SIZE : Nat := 512

def DIR_BLOCKS : Nat := 12

def INDIR_BLOCKS : Nat := 1

def DINDIR_BLOCKS : Nat := 1

def INDIR_BLOCK_PTRS : Nat := 128

def U32MOD : Nat := 2 ^ 32

/-- Two's-complement reading of a 32-bit unsigned value as a C `int`. -/
def toInt32 (u : Nat) : Int :=
  if u % U32MOD < 2 ^ 31 then ((u % U32MOD : Nat) : Int) else ((u % U32MOD : Nat) : Int) - (U32MOD : Int)

/-- C conversion of a signed 32-bit value to `size_t` (reduce mod 2^32). -/
def u32ofInt (i : Int) : Nat := (i % (U32MOD : Int)).toNat

/-- Unsigned 32-bit subtraction `a - b` as C computes it on `size_t`. -/
def sub32 (a b : Nat) : Nat := (a % U32MOD + U32MOD - b % U32MOD) % U32MOD

/-- Unsigned 32-bit decrement, as `new_data_sectors--` behaves on `size_t`. -/
def dec32 (n : Nat) : Nat := if n = 0 then U32MOD - 1 else n - 1

/-- On-disk inode, `struct inode_disk` from inode.h. -/
structure InodeDisk where
  length : Int
  magic : Nat
  sector : Nat
  isdir : Bool
  dir_cnt : Nat
  direct : Nat → Nat
  indir_cnt : Nat
  indir_curr_usage : Nat
  indirect : Nat → Nat
  dindir_cnt : Nat
  dindir_curr_usage : Nat
  dindir_lv2_curr_usage : Nat
  dindirect : Nat → Nat

/-- Returns the number of total data sectors for an inode SIZE bytes long:
`DIV_ROUND_UP (size, BLOCK_SECTOR_SIZE)` computed in C `int` arithmetic and
converted to the function's `size_t` return type. -/
def bytes_to_total_sectors (size : Int) : Nat :=
  u32ofInt (Int.tdiv (size + (BLOCK_SECTOR_SIZE : Int) - 1) (BLOCK_SECTOR_SIZE : Int))

/-- Returns the block device sector that contains byte offset POS within the
inode (inode.c `byte_to_sector`).  The C function returns the sentinel
`(block_sector_t) -1` when the inode holds no data for POS; the model returns
`none` for that sentinel.  `dmap` supplies the `block_read` results for the
indirect blocks consulted during the traversal. -/
def byte_to_sector (dmap : Nat → Nat → Nat) (d : InodeDisk) (pos : Int) : Option Nat :=
  if pos < d.length ∧ 0 ≤ pos then
    let p : Nat := pos.toNat
    if p < BLOCK_SECTOR_SIZE * DIR_BLOCKS then
      some (d.direct (p / BLOCK_SECTOR_SIZE))
    else if p < BLOCK_SECTOR_SIZE * (DIR_BLOCKS + INDIR_BLOCK_PTRS * INDIR_BLOCKS) then
      let p1 := p - BLOCK_SECTOR_SIZE * DIR_BLOCKS
      let indir_idx := p1 / (BLOCK_SECTOR_SIZE * INDIR_BLOCK_PTRS)
      let indir_block := dmap (d.indirect indir_idx)
      some (indir_block ((p1 % (BLOCK_SECTOR_SIZE * INDIR_BLOCK_PTRS)) / BLOCK_SECTOR_SIZE))
    else
      let p2 := p - BLOCK_SECTOR_SIZE * (DIR_BLOCKS + INDIR_BLOCK_PTRS * INDIR_BLOCKS)
      let d_idx := p2 / (BLOCK_SECTOR_SIZE * INDIR_BLOCK_PTRS * INDIR_BLOCK_PTRS)
      if d_idx < DINDIR_BLOCKS then
        let d_block := dmap (d.dindirect d_idx)
        let p3 := p2 % (BLOCK_SECTOR_SIZE * INDIR_BLOCK_PTRS * INDIR_BLOCK_PTRS)
        let lv2_block := dmap (d_block (p3 / (BLOCK_SECTOR_SIZE * INDIR_BLOCK_PTRS)))
        some (lv2_block ((p3 % (BLOCK_SECTOR_SIZE * INDIR_BLOCK_PTRS)) / BLOCK_SECTOR_SIZE))
      else none
  else none

/-! State threaded through `dinode_extend`. -/

structure ExtSt where
  d : InodeDisk
  dmap : Nat → Nat → Nat
  dinodes : Nat → InodeDisk
  ak : Nat
  zeroed : List Nat

/-- Model of `free_map_allocate (1, ptr)` (free-map.c is outside the given
sources; modelled from the spec: the allocator either yields a sector or
fails with NoSpace, leaving the output slot untouched).  Arguments: oracle,
call counter, current value behind `ptr`.  Result: success flag, value now
behind `ptr`, next call counter.  All `dinode_extend` call sites discard the
flag, exactly as the C code does. -/
def free_map_allocate (A : Nat → Option Nat) (k : Nat) (cur : Nat) : Bool × Nat × Nat :=
  match A k with
  | some s => (true, s, k + 1)
  | none => (false, cur, k + 1)

/-- Write a zero-filled sector (`block_write (fs_device, s, zeros)`). -/
def writeZeros (st : ExtSt) (s : Nat) : ExtSt :=
  { st with dmap := Function.update st.dmap s (fun _ => 0), zeroed := s :: st.zeroed }

/-- Body of the direct-block loop of `dinode_extend` (inode.c lines
104-107): `dir_cnt++`, allocate a sector into `direct[dir_cnt-1]`, write
zeros to it. -/
def dirStep (A : Nat → Option Nat) (st : ExtSt) : ExtSt :=
  let d1 := { st.d with dir_cnt := st.d.dir_cnt + 1 }
  let a := free_map_allocate A st.ak (d1.direct (d1.dir_cnt - 1))
  let d2 := { d1 with direct := Function.update d1.direct (d1.dir_cnt - 1) a.2.1 }
  writeZeros { st with d := d2, ak := a.2.2 } a.2.1

/-- Direct-block loop of `dinode_extend` (inode.c lines 103-110).  Returns
the state, the remaining `new_data_sectors`, and whether `goto done` fired. -/
def extend_dir (A : Nat → Option Nat) : Nat → ExtSt → Nat → ExtSt × Nat × Bool
  | 0, st, n => (st, n, false)
  | fuel + 1, st, n =>
    if st.d.dir_cnt < DIR_BLOCKS then
      let st1 := dirStep A st
      let n1 := dec32 n
      if n1 = 0 then (st1, n1, true) else extend_dir A fuel st1 n1
    else (st, n, false)

/-- Body of the inner loop of the single-indirect phase (inode.c lines
129-131): `indir_curr_usage++`, allocate a data sector into
`block.ptr[indir_curr_usage-1]`, write zeros to it. -/
def indirFillStep (A : Nat → Option Nat) (st : ExtSt) (blk : Nat → Nat) : ExtSt × (Nat → Nat) :=
  let d1 := { st.d with indir_curr_usage := st.d.indir_curr_usage + 1 }
  let a := free_map_allocate A st.ak (blk (d1.indir_curr_usage - 1))
  let blk1 := Function.update blk (d1.indir_curr_usage - 1) a.2.1
  (writeZeros { st with d := d1, ak := a.2.2 } a.2.1, blk1)

/-- Inner loop of the single-indirect phase (inode.c lines 127-134): fill
pointer slots of the in-memory `struct indir_block` until the block is full
or no sectors remain.  Returns state, the block contents, and remaining n. -/
def extend_indir_fill (A : Nat → Option Nat) : Nat → ExtSt → (Nat → Nat) → Nat → ExtSt × (Nat → Nat) × Nat
  | 0, st, blk, n => (st, blk, n)
  | fuel + 1, st, blk, n =>
    if st.d.indir_curr_usage < INDIR_BLOCK_PTRS then
      let p := indirFillStep A st blk
      let n1 := dec32 n
      if n1 = 0 then (p.1, p.2, n1) else extend_indir_fill A fuel p.1 p.2 n1
    else (st, blk, n)

/-- The lazy allocation of the single-indirect block itself (inode.c lines
118-123): when no indirect block exists, or the current one is full,
`indir_cnt++`, allocate `indirect[indir_cnt-1]`, reset the usage cursor. -/
def indirAllocStep (A : Nat → Option Nat) (st : ExtSt) : ExtSt :=
  if st.d.indir_cnt = 0 ∨ st.d.indir_curr_usage = INDIR_BLOCK_PTRS then
    let d1 := { st.d with indir_cnt := st.d.indir_cnt + 1 }
    let a := free_map_allocate A st.ak (d1.indirect (d1.indir_cnt - 1))
    let d2 := { d1 with indirect := Function.update d1.indirect (d1.indir_cnt - 1) a.2.1,
                        indir_curr_usage := 0 }
    { st with d := d2, ak := a.2.2 }
  else st

/-- Single-indirect loop of `dinode_extend` (inode.c lines 113-138): lazily
allocate the indirect block, `block_read` it, fill it, `block_write` it
back. -/
def extend_indir (A : Nat → Option Nat) : Nat → ExtSt → Nat → ExtSt × Nat × Bool
  | 0, st, n => (st, n, false)
  | fuel + 1, st, n =>
    if st.d.indir_cnt < INDIR_BLOCKS then
      let st0 := indirAllocStep A st
      let blk := st0.dmap (st0.d.indirect (st0.d.indir_cnt - 1))
      let r := extend_indir_fill A INDIR_BLOCK_PTRS st0 blk n
      let st2 := { r.1 with dmap := Function.update r.1.dmap (r.1.d.indirect (r.1.d.indir_cnt - 1)) r.2.1 }
      if r.2.2 = 0 then (st2, r.2.2, true) else extend_indir A fuel st2 r.2.2
    else (st, n, false)

/-- Body of the innermost loop of the double-indirect phase (inode.c lines
173-175): `dindir_lv2_curr_usage++`, allocate a data sector into the level-2
block, write zeros to it. -/
def dindirFillStep (A : Nat → Option Nat) (st : ExtSt) (blk : Nat → Nat) : ExtSt × (Nat → Nat) :=
  let d1 := { st.d with dindir_lv2_curr_usage := st.d.dindir_lv2_curr_usage + 1 }
  let a := free_map_allocate A st.ak (blk (d1.dindir_lv2_curr_usage - 1))
  let blk1 := Function.update blk (d1.dindir_lv2_curr_usage - 1) a.2.1
  (writeZeros { st with d := d1, ak := a.2.2 } a.2.1, blk1)

/-- Innermost loop of the double-indirect phase (inode.c lines 171-178). -/
def extend_dindir_fill (A : Nat → Option Nat) : Nat → ExtSt → (Nat → Nat) → Nat → ExtSt × (Nat → Nat) × Nat
  | 0, st, blk, n => (st, blk, n)
  | fuel + 1, st, blk, n =>
    if st.d.dindir_lv2_curr_usage < INDIR_BLOCK_PTRS then
      let p := dindirFillStep A st blk
      let n1 := dec32 n
      if n1 = 0 then (p.1, p.2, n1) else extend_dindir_fill A fuel p.1 p.2 n1
    else (st, blk, n)

/-- The lazy allocation of a level-2 block (inode.c lines 160-165): when no
level-2 block exists, or the current one is full, `dindir_curr_usage++`,
allocate `d_block.ptr[dindir_curr_usage-1]`, reset the level-2 cursor. -/
def dindirMidAllocStep (A : Nat → Option Nat) (st : ExtSt) (dblk : Nat → Nat) : ExtSt × (Nat → Nat) :=
  if st.d.dindir_curr_usage = 0 ∨ st.d.dindir_lv2_curr_usage = INDIR_BLOCK_PTRS then
    let d1 := { st.d with dindir_curr_usage := st.d.dindir_curr_usage + 1 }
    let a := free_map_allocate A st.ak (dblk (d1.dindir_curr_usage - 1))
    let dblk1 := Function.update dblk (d1.dindir_curr_usage - 1) a.2.1
    let d2 := { d1 with dindir_lv2_curr_usage := 0 }
    ({ st with d := d2, ak := a.2.2 }, dblk1)
  else (st, dblk)

/-- Middle loop of the double-indirect phase (inode.c lines 157-184),
walking the level-1 block `d_block` over its level-2 blocks. -/
def extend_dindir_mid (A : Nat → Option Nat) : Nat → ExtSt → (Nat → Nat) → Nat → ExtSt × (Nat → Nat) × Nat
  | 0, st, dblk, n => (st, dblk, n)
  | fuel + 1, st, dblk, n =>
    if st.d.dindir_curr_usage < INDIR_BLOCK_PTRS then
      let p := dindirMidAllocStep A st dblk
      let blk := p.1.dmap (p.2 (p.1.d.dindir_curr_usage - 1))
      let r := extend_dindir_fill A INDIR_BLOCK_PTRS p.1 blk n
      let st2 := { r.1 with dmap := Function.update r.1.dmap (p.2 (r.1.d.dindir_curr_usage - 1)) r.2.1 }
      if r.2.2 = 0 then (st2, p.2, r.2.2) else extend_dindir_mid A fuel st2 p.2 r.2.2
    else (st, dblk, n)

/-- The lazy allocation of the level-1 double-indirect block (inode.c lines
146-151). -/
def dindirAllocStep (A : Nat → Option Nat) (st : ExtSt) : ExtSt :=
  if st.d.dindir_cnt = 0 ∨ st.d.dindir_curr_usage = INDIR_BLOCK_PTRS then
    let d1 := { st.d with dindir_cnt := st.d.dindir_cnt + 1 }
    let a := free_map_allocate A st.ak (d1.dindirect (d1.dindir_cnt - 1))
    let d2 := { d1 with dindirect := Function.update d1.dindirect (d1.dindir_cnt - 1) a.2.1,
                        dindir_curr_usage := 0 }
    { st with d := d2, ak := a.2.2 }
  else st

/-- Double-indirect loop of `dinode_extend` (inode.c lines 141-190). -/
def extend_dindir (A : Nat → Option Nat) : Nat → ExtSt → Nat → ExtSt × Nat × Bool
  | 0, st, n => (st, n, false)
  | fuel + 1, st, n =>
    if st.d.dindir_cnt < DINDIR_BLOCKS then
      let st0 := dindirAllocStep A st
      let dblk := st0.dmap (st0.d.dindirect (st0.d.dindir_cnt - 1))
      let r := extend_dindir_mid A 130 st0 dblk n
      let st2 := { r.1 with dmap := Function.update r.1.dmap (r.1.d.dindirect (r.1.d.dindir_cnt - 1)) r.2.1 }
      if r.2.2 = 0 then (st2, r.2.2, true) else extend_dindir A fuel st2 r.2.2
    else (st, n, false)

/-- Set the length field and write the inode record back to its own sector,
as both exits of `dinode_extend` do. -/
def extend_writeback (st : ExtSt) (len : Int) : ExtSt × Int :=
  let d1 := { st.d with length := len }
  ({ st with d := d1, dinodes := Function.update st.dinodes d1.sector d1 }, len)

/-- Returns the actual new length of the inode; it may differ from the given
`new_length` if the index tree cannot grow far enough (inode.c lines
91-202).  `new_data_sectors` has type `size_t`, so the difference of sector
counts is taken mod 2^32 and the guarding `ASSERT (new_data_sectors >= 0)`
is compiled here to the explicit (never-failing) check that produces
`none`. -/
def dinode_extend (A : Nat → Option Nat) (st : ExtSt) (new_length : Int) : Option (ExtSt × Int) :=
  let n0 := sub32 (bytes_to_total_sectors new_length) (bytes_to_total_sectors st.d.length)
  if (n0 : Int) < 0 then none
  else if n0 = 0 then some (extend_writeback st new_length)
  else
    let r1 := extend_dir A (DIR_BLOCKS + 1) st n0
    if r1.2.2 then some (extend_writeback r1.1 new_length)
    else
      let r2 := extend_indir A (INDIR_BLOCKS + 1) r1.1 r1.2.1
      if r2.2.2 then some (extend_writeback r2.1 new_length)
      else
        let r3 := extend_dindir A (DINDIR_BLOCKS + 1) r2.1 r2.2.1
        if r3.2.2 then some (extend_writeback r3.1 new_length)
        else
          some (extend_writeback r3.1 (toInt32 (sub32 (u32ofInt new_length) (r3.2.1 * BLOCK_SECTOR_SIZE))))

/-! `dinode_free` (inode.c lines 204-260): release the whole index tree to
the free map, double-indirect part first, decrementing the same counters the
extender maintains.  The released sectors are appended to a log in call
order (`free_map_release` is also part of the absent free-map.c and is
modelled from the spec as clearing bits, i.e. pure logging here). -/

def free_dindir_lv2 : Nat → (Nat → Nat) → InodeDisk → List Nat → InodeDisk × List Nat
  | 0, _, d, log => (d, log)
  | fuel + 1, blk, d, log =>
    if d.dindir_lv2_curr_usage ≠ 0 then
      free_dindir_lv2 fuel blk { d with dindir_lv2_curr_usage := d.dindir_lv2_curr_usage - 1 }
        (log ++ [blk (d.dindir_lv2_curr_usage - 1)])
    else (d, log)

def free_dindir_mid (dmap : Nat → Nat → Nat) : Nat → (Nat → Nat) → InodeDisk → List Nat → InodeDisk × List Nat
  | 0, _, d, log => (d, log)
  | fuel + 1, dblk, d, log =>
    if d.dindir_curr_usage ≠ 0 then
      let blk := dmap (dblk (d.dindir_curr_usage - 1))
      let r := free_dindir_lv2 (INDIR_BLOCK_PTRS + 1) blk d log
      let log2 := r.2 ++ [dblk (r.1.dindir_curr_usage - 1)]
      let d2 : InodeDisk := { r.1 with dindir_curr_usage := r.1.dindir_curr_usage - 1 }
      let d3 : InodeDisk := if d2.dindir_curr_usage ≠ 0 then { d2 with dindir_lv2_curr_usage := INDIR_BLOCK_PTRS } else d2
      free_dindir_mid dmap fuel dblk d3 log2
    else (d, log)

def free_dindir (dmap : Nat → Nat → Nat) : Nat → InodeDisk → List Nat → InodeDisk × List Nat
  | 0, d, log => (d, log)
  | fuel + 1, d, log =>
    if d.dindir_cnt ≠ 0 then
      let dblk := dmap (d.dindirect (d.dindir_cnt - 1))
      let r := free_dindir_mid dmap (2 * INDIR_BLOCK_PTRS + 2) dblk d log
      let log2 := r.2 ++ [r.1.dindirect (r.1.dindir_cnt - 1)]
      let d2 : InodeDisk := { r.1 with dindir_cnt := r.1.dindir_cnt - 1 }
      let d3 : InodeDisk := if d2.dindir_cnt ≠ 0 then { d2 with dindir_curr_usage := INDIR_BLOCK_PTRS } else d2
      free_dindir dmap fuel d3 log2
    else (d, log)

def free_indir_inner : Nat → (Nat → Nat) → InodeDisk → List Nat → InodeDisk × List Nat
  | 0, _, d, log => (d, log)
  | fuel + 1, blk, d, log =>
    if d.indir_curr_usage ≠ 0 then
      free_indir_inner fuel blk { d with indir_curr_usage := d.indir_curr_usage - 1 }
        (log ++ [blk (d.indir_curr_usage - 1)])
    else (d, log)

def free_indir (dmap : Nat → Nat → Nat) : Nat → InodeDisk → List Nat → InodeDisk × List Nat
  | 0, d, log => (d, log)
  | fuel + 1, d, log =>
    if d.indir_cnt ≠ 0 then
      let blk := dmap (d.indirect (d.indir_cnt - 1))
      let r := free_indir_inner (INDIR_BLOCK_PTRS + 1) blk d log
      let log2 := r.2 ++ [r.1.indirect (r.1.indir_cnt - 1)]
      let d2 : InodeDisk := { r.1 with indir_cnt := r.1.indir_cnt - 1 }
      let d3 : InodeDisk := if d2.indir_cnt ≠ 0 then { d2 with indir_curr_usage := INDIR_BLOCK_PTRS } else d2
      free_indir dmap fuel d3 log2
    else (d, log)

def free_dir : Nat → InodeDisk → List Nat → InodeDisk × List Nat
  | 0, d, log => (d, log)
  | fuel + 1, d, log =>
    if d.dir_cnt ≠ 0 then
      free_dir fuel { d with dir_cnt := d.dir_cnt - 1 } (log ++ [d.direct (d.dir_cnt - 1)])
    else (d, log)

/-- `dinode_free (dinode)`: double-indirect tree, then single indirect, then
direct blocks; returns the final record and the sectors released, in
release order. -/
def dinode_free (dmap : Nat → Nat → Nat) (d : InodeDisk) : InodeDisk × List Nat :=
  let r1 := free_dindir dmap (DINDIR_BLOCKS + 1) d []
  let r2 := free_indir dmap (INDIR_BLOCKS + 1) r1.1 r1.2
  free_dir (DIR_BLOCKS + 1) r2.1 r2.2

/-! The in-memory inode and the process-wide table of open inodes
(inode.c lines 79-376). -/

/-- In-memory inode, `struct inode` from inode.h (minus the intrusive list
link, which the table's list order models). -/
structure Inode where
  sector : Nat
  open_cnt : Int
  removed : Bool
  deny_write_cnt : Int
  data : InodeDisk

/-- Filesystem state: the `open_inodes` list (front = most recently pushed),
both disk views, and the log of sectors handed to `free_map_release`. -/
structure FsSt where
  table : List Inode
  dmap : Nat → Nat → Nat
  dinodes : Nat → InodeDisk
  freed : List Nat

/-- Scan of `open_inodes` for a sector, in list order, as the loop in
`inode_open` does. -/
def tableFind (s : Nat) (l : List Inode) : Option Inode :=
  l.find? (fun i => i.sector == s)

/-- Apply `f` to the first list entry satisfying `p`, leave the rest. -/
def updateFirst (p : α → Bool) (f : α → α) : List α → List α
  | [] => []
  | x :: xs => if p x then f x :: xs else x :: updateFirst p f xs

/-- Remove the first list entry satisfying `p` (`list_remove`). -/
def eraseFirstP (p : α → Bool) : List α → List α
  | [] => []
  | x :: xs => if p x then xs else x :: eraseFirstP p xs

/-- `inode_open (sector)` (inode.c lines 293-324): if the sector is already
open, `inode_reopen` the existing entry; otherwise push a fresh inode on the
front of the list and `block_read` its record. -/
def inode_open (s : Nat) (fs : FsSt) : FsSt :=
  match tableFind s fs.table with
  | some _ =>
    { fs with table := updateFirst (fun i => i.sector == s) (fun i => { i with open_cnt := i.open_cnt + 1 }) fs.table }
  | none =>
    { fs with table :=
        { sector := s, open_cnt := 1, removed := false, deny_write_cnt := 0,
          data := fs.dinodes s } :: fs.table }

/-- `inode_reopen` (inode.c lines 327-333) on the open inode at sector `s`. -/
def inode_reopen (s : Nat) (fs : FsSt) : FsSt :=
  { fs with table := updateFirst (fun i => i.sector == s) (fun i => { i with open_cnt := i.open_cnt + 1 }) fs.table }

/-- `inode_close` (inode.c lines 345-367) on the open inode at sector `s`:
decrement `open_cnt`; on reaching zero remove the entry from the list and,
if `removed` was set, release the inode's own sector and then every sector
of its index tree. -/
def inode_close (s : Nat) (fs : FsSt) : FsSt :=
  match tableFind s fs.table with
  | none => fs
  | some m =>
    if m.open_cnt - 1 = 0 then
      let fs1 := { fs with table := eraseFirstP (fun i => i.sector == s) fs.table }
      if m.removed then
        { fs1 with freed := fs1.freed ++ s :: (dinode_free fs.dmap m.data).2 }
      else fs1
    else
      { fs with table := updateFirst (fun i => i.sector == s) (fun i => { i with open_cnt := i.open_cnt - 1 }) fs.table }

/-- `inode_remove` (inode.c lines 371-376): only sets the `removed` flag. -/
def inode_remove (s : Nat) (fs : FsSt) : FsSt :=
  { fs with table := updateFirst (fun i => i.sector == s) (fun i => { i with removed := true }) fs.table }

/-- One call into the inode table, identified by the sector of the handle it
acts on. -/
inductive InodeOp where
  | iopen (s : Nat)
  | ireopen (s : Nat)
  | iclose (s : Nat)
  | iremove (s : Nat)

def inodeStep (fs : FsSt) : InodeOp → FsSt
  | .iopen s => inode_open s fs
  | .ireopen s => inode_reopen s fs
  | .iclose s => inode_close s fs
  | .iremove s => inode_remove s fs

def runOps (fs : FsSt) : List InodeOp → FsSt
  | [] => fs
  | op :: ops => runOps (inodeStep fs op) ops

/-! `inode_read_at` and `inode_write_at` (inode.c lines 381-507), at byte
granularity.  The caller's buffer is a function from byte index to value;
`min_left` / `chunk_size` follow the C computation.  When `byte_to_sector`
yields the sentinel, the C code would address sector `(block_sector_t) -1`;
the model uses `U32MOD - 1` for that value. -/

def write_loop (st : ExtSt) (buffer : Nat → Nat) : Nat → Int → Int → Int → ExtSt × Int
  | 0, _, _, bytes_written => (st, bytes_written)
  | fuel + 1, size, offset, bytes_written =>
    if size > 0 then
      let sector_idx := (byte_to_sector st.dmap st.d offset).getD (U32MOD - 1)
      let sector_ofs := (Int.emod offset (BLOCK_SECTOR_SIZE : Int)).toNat
      let inode_left := st.d.length - offset
      let sector_left : Int := (BLOCK_SECTOR_SIZE : Int) - (sector_ofs : Int)
      let min_left := min inode_left sector_left
      let chunk_size := min size min_left
      if chunk_size ≤ 0 then (st, bytes_written)
      else
        let content : Nat → Nat :=
          if sector_ofs = 0 ∧ chunk_size = (BLOCK_SECTOR_SIZE : Int) then
            fun i => buffer (bytes_written.toNat + i)
          else
            let bounce : Nat → Nat :=
              if sector_ofs > 0 ∨ chunk_size < sector_left then st.dmap sector_idx
              else fun _ => 0
            fun i =>
              if sector_ofs ≤ i ∧ i < sector_ofs + chunk_size.toNat then
                buffer (bytes_written.toNat + (i - sector_ofs))
              else bounce i
        let st1 := { st with dmap := Function.update st.dmap sector_idx content }
        write_loop st1 buffer fuel (size - chunk_size) (offset + chunk_size) (bytes_written + chunk_size)
    else (st, bytes_written)

/-- `inode_write_at (inode, buffer, size, offset)`.  The in-memory inode's
`data` is `st.d`; `deny` is the inode's `deny_write_cnt`.  A write past the
current length first calls `dinode_extend` and fails with `-1` when the
extension fell short. -/
def inode_write_at (A : Nat → Option Nat) (st : ExtSt) (deny : Int) (buffer : Nat → Nat)
    (size offset : Int) : Option (ExtSt × Int) :=
  if deny ≠ 0 then some (st, 0)
  else if offset + size > st.d.length then
    match dinode_extend A st (offset + size) with
    | none => none
    | some r =>
      let st1 := { r.1 with d := { r.1.d with length := r.2 } }
      if st1.d.length ≠ offset + size then some (st1, -1)
      else some (write_loop st1 buffer (size.toNat + 1) size offset 0)
  else some (write_loop st buffer (size.toNat + 1) size offset 0)

def read_loop (st : ExtSt) : Nat → (Nat → Nat) → Int → Int → Int → (Nat → Nat) × Int
  | 0, buffer, _, _, bytes_read => (buffer, bytes_read)
  | fuel + 1, buffer, size, offset, bytes_read =>
    if size > 0 then
      let sector_idx := (byte_to_sector st.dmap st.d offset).getD (U32MOD - 1)
      let sector_ofs := (Int.emod offset (BLOCK_SECTOR_SIZE : Int)).toNat
      let inode_left := st.d.length - offset
      let sector_left : Int := (BLOCK_SECTOR_SIZE : Int) - (sector_ofs : Int)
      let min_left := min inode_left sector_left
      let chunk_size := min size min_left
      if chunk_size ≤ 0 then (buffer, bytes_read)
      else
        let buffer1 : Nat → Nat :=
          if sector_ofs = 0 ∧ chunk_size = (BLOCK_SECTOR_SIZE : Int) then
            fun j =>
              if bytes_read.toNat ≤ j ∧ j < bytes_read.toNat + chunk_size.toNat then
                st.dmap sector_idx (j - bytes_read.toNat)
              else buffer j
          else
            fun j =>
              if bytes_read.toNat ≤ j ∧ j < bytes_read.toNat + chunk_size.toNat then
                st.dmap sector_idx (sector_ofs + (j - bytes_read.toNat))
              else buffer j
        read_loop st fuel buffer1 (size - chunk_size) (offset + chunk_size) (bytes_read + chunk_size)
    else (buffer, bytes_read)

/-- `inode_read_at (inode, buffer, size, offset)`: returns the caller's
buffer after the copy-out, and the number of bytes read. -/
def inode_read_at (st : ExtSt) (buffer : Nat → Nat) (size offset : Int) : (Nat → Nat) × Int :=
  read_loop st (size.toNat + 1) buffer size offset 0

/-! The path resolver `get_dir` (filesys.c lines 127-183).  directory.c is
not among the given sources; following the spec, a directory handle just
wraps the directory's inode (identified here by its sector), `dir_open`
wraps, `dir_close` is `inode_close` on the wrapped inode, `dir_reopen` is
`inode_reopen`, and `dir_lookup` scans the directory's `(name, sector)`
entries and opens the inode of a hit.  The entry tables of all directories
are supplied by `ent : Nat → List (List Char × Nat)`.  Paths are lists of
characters; `tokenize` mirrors `strtok_r (.., "/", ..)`, which yields the
maximal non-empty chunks between slashes. -/

def tokSplit : List Char → List Char → List (List Char)
  | [], cur => if cur = [] then [] else [cur.reverse]
  | c :: rest, cur =>
    if c = '/' then
      if cur = [] then tokSplit rest [] else cur.reverse :: tokSplit rest []
    else tokSplit rest (c :: cur)

def tokenize (p : List Char) : List (List Char) := tokSplit p []

/-- Spec-modelled `dir_lookup` followed by `dir_open` of the hit: find the
entry with the given name in the directory at sector `dirs`, and open its
inode.  Returns the resolved sector (the new directory handle) and the
updated filesystem state. -/
def dir_lookup_open (ent : Nat → List (List Char × Nat)) (fs : FsSt) (dirs : Nat)
    (name : List Char) : Option Nat × FsSt :=
  match (ent dirs).find? (fun e => e.1 == name) with
  | some e => (some e.2, inode_open e.2 fs)
  | none => (none, fs)

/-- Is the `removed` flag of the open inode at sector `s` set
(`inode_is_removed (dir->inode)`)? -/
def inode_is_removed (s : Nat) (fs : FsSt) : Bool :=
  ((tableFind s fs.table).map (fun i => i.removed)).getD false

/-- The token walk of `get_dir`: one call is one iteration of the C `while
(true)` loop, carrying the current `(token, next)` pair with `next` the head
of `rest`.  On a failed lookup the held directory is closed before the error
return (filesys.c lines 160-165). -/
def gd_walk (ent : Nat → List (List Char × Nat)) (include_last : Bool) :
    List (List Char) → FsSt → Nat → Option (List Char) → Option Nat × FsSt
  | [], fs, dir, token =>
    if include_last = false then (some dir, fs)
    else
      match token with
      | none => (some dir, fs)
      | some t =>
        match dir_lookup_open ent fs dir t with
        | (none, fs1) => (none, inode_close dir fs1)
        | (some ino, fs1) => (some ino, inode_close dir fs1)
  | t2 :: rest, fs, dir, token =>
    match token with
    | none => (some dir, fs)
    | some t =>
      match dir_lookup_open ent fs dir t with
      | (none, fs1) => (none, inode_close dir fs1)
      | (some ino, fs1) => gd_walk ent include_last rest (inode_close dir fs1) ino (some t2)

/-- `get_dir (path, include_last_token)` (filesys.c lines 127-183).  `cwd`
is `thread_current ()->dir` (the sector of the handle, if any); the root
directory's inode lives at sector 1 (ROOT_DIR_SECTOR).  NOTE the final
`removed` check returns the error without closing the directory handle the
walk still holds, exactly as in the source. -/
def get_dir (ent : Nat → List (List Char × Nat)) (fs : FsSt) (cwd : Option Nat)
    (path : List Char) (include_last : Bool) : Option Nat × FsSt :=
  let start : Nat × FsSt :=
    if path.head? ≠ some '/' then
      match cwd with
      | some c => (c, inode_reopen c fs)
      | none => (1, inode_open 1 fs)
    else (1, inode_open 1 fs)
  let toks := tokenize path
  match gd_walk ent include_last toks.tail start.2 start.1 toks.head? with
  | (none, fs2) => (none, fs2)
  | (some dir, fs2) =>
    if inode_is_removed dir fs2 then (none, fs2)
    else (some dir, fs2)

/-! Derived notions used by the theorems. -/

/-- Remaining insertion capacity (in data sectors) of an index tree for one
`dinode_extend` call: the direct loop can append `12 - dir_cnt` sectors, the
single-indirect loop runs only when `indir_cnt = 0` (its guard is
`indir_cnt < INDIR_BLOCKS`) and then appends up to 128, and likewise the
double-indirect loop runs only when `dindir_cnt = 0` and appends up to
128 * 128. -/
def capRem (d : InodeDisk) : Nat :=
  (DIR_BLOCKS - d.dir_cnt)
    + (if d.indir_cnt = 0 then INDIR_BLOCK_PTRS else 0)
    + (if d.dindir_cnt = 0 then INDIR_BLOCK_PTRS * INDIR_BLOCK_PTRS else 0)

/-- Data sectors accounted by the tree counters: full direct slots, the used
slots of the single-indirect block, and the used slots of the
double-indirect tree ((usage - 1) full level-2 blocks plus the fill of the
last one). -/
def sectorsUsed (d : InodeDisk) : Nat :=
  d.dir_cnt
    + (if d.indir_cnt = 0 then 0 else d.indir_curr_usage)
    + (if d.dindir_cnt = 0 then 0
       else (d.dindir_curr_usage - 1) * INDIR_BLOCK_PTRS + d.dindir_lv2_curr_usage)

/-- Well-formed on-disk inode: counters in range and consistent with the
byte length (the accounting invariant of the spec, maintained by
`inode_create` / `dinode_extend` for every reachable inode). -/
def WF (d : InodeDisk) : Prop :=
  d.dir_cnt ≤ DIR_BLOCKS ∧ d.indir_cnt ≤ INDIR_BLOCKS ∧
  d.indir_curr_usage ≤ INDIR_BLOCK_PTRS ∧ d.dindir_cnt ≤ DINDIR_BLOCKS ∧
  d.dindir_curr_usage ≤ INDIR_BLOCK_PTRS ∧ d.dindir_lv2_curr_usage ≤ INDIR_BLOCK_PTRS ∧
  0 ≤ d.length ∧ sectorsUsed d = (d.length.toNat + 511) / 512

/-- Number of data sectors `dinode_extend` computes into its `size_t`
variable `new_data_sectors` (inode.c line 94), before any loop runs. -/
def extend_needed (d : InodeDisk) (new_length : Int) : Nat :=
  sub32 (bytes_to_total_sectors new_length) (bytes_to_total_sectors d.length)

/-- The table invariant of the open-inode list: at most one in-memory inode
per on-disk sector. -/
def TableInv (fs : FsSt) : Prop :=
  (fs.table.map (fun i => i.sector)).Nodup

/-! Concrete states used by witnesses and counterexamples. -/

/-- A freshly `calloc`ed `inode_disk` as `inode_create` builds it before
extending (inode.c lines 277-282). -/
def freshD (sec : Nat) : InodeDisk :=
  { length := 0, magic := 0x494e4f44, sector := sec, isdir := false,
    dir_cnt := 0, direct := fun _ => 0,
    indir_cnt := 0, indir_curr_usage := 0, indirect := fun _ => 0,
    dindir_cnt := 0, dindir_curr_usage := 0, dindir_lv2_curr_usage := 0,
    dindirect := fun _ => 0 }

/-- Allocation oracle handing out the distinct fresh sectors 100, 101, ... -/
def seqA : Nat → Option Nat := fun k => some (100 + k)

/-- Extension state for a fresh inode at sector 50, on a disk whose initial
content is the arbitrary marker value 7777 everywhere. -/
def st0 : ExtSt :=
  { d := freshD 50, dmap := fun _ _ => 7777, dinodes := fun s => freshD s, ak := 0, zeroed := [] }

/-- The file after `inode_create` grows it to 6656 = (12 + 1) * 512 bytes:
all twelve direct slots full and one pointer in the single-indirect
block. -/
def st6656 : ExtSt := ((dinode_extend seqA st0 6656).getD (st0, 0)).1

/-- Result of then writing one byte at offset 7168 = 14 * 512 (a hole of
512 bytes would have to appear at [6656, 7168)). -/
def wr7168 : Option (ExtSt × Int) := inode_write_at seqA st6656 0 (fun _ => 89) 1 7168

def st7168 : ExtSt := (wr7168.getD (st0, 0)).1

/-- A reachable mid-extension state: 141 data sectors (12 direct, 10
single-indirect, 119 in the first level-2 block of the double-indirect
tree), length 71681. -/
def dMid : InodeDisk :=
  { freshD 50 with
      length := 71681, dir_cnt := 12, indir_cnt := 1, indir_curr_usage := 10,
      dindir_cnt := 1, dindir_curr_usage := 1, dindir_lv2_curr_usage := 119 }

def stMid : ExtSt := { st0 with d := dMid }

/-- A fully grown file: every counter at its maximum, length
(12 + 128 + 128 * 128) * 512 = 8460288. -/
def dFull : InodeDisk :=
  { freshD 50 with
      length := 8460288, dir_cnt := 12, indir_cnt := 1, indir_curr_usage := 128,
      dindir_cnt := 1, dindir_curr_usage := 128, dindir_lv2_curr_usage := 128 }

def stFull : ExtSt := { st0 with d := dFull }

/-- Writing one byte at the very end of a fully grown file. -/
def wrFull : Option (ExtSt × Int) := inode_write_at seqA stFull 0 (fun _ => 89) 1 8460288

/-- Directory entries for the resolver scenario: root (sector 1) holds
"a" → sector 2, directory "a" holds "b" → sector 3. -/
def entAB : Nat → List (List Char × Nat) := fun s =>
  if s = 1 then [(['a'], 2)] else if s = 2 then [(['b'], 3)] else []

/-- Filesystem state in which directory "a" (sector 2) is held open once
and has already been removed. -/
def fsAB : FsSt :=
  { table := [{ sector := 2, open_cnt := 1, removed := true, deny_write_cnt := 0, data := freshD 2 }],
    dmap := fun _ _ => 0, dinodes := fun s => freshD s, freed := [] }

/-- Resolving "/a/b" in that state. -/
def gdAB : Option Nat × FsSt := get_dir entAB fsAB none ['/', 'a', '/', 'b'] false

/-- An empty filesystem state. -/
def fsEmpty : FsSt :=
  { table := [], dmap := fun _ _ => 0, dinodes := fun s => freshD s, freed := [] }

/-- A filesystem state whose table holds sector 5 open twice. -/
def fsOpen5 : FsSt :=
  { table := [{ sector := 5, open_cnt := 2, removed := false, deny_write_cnt := 0,
                data := freshD 5 }],
    dmap := fun _ _ => 0, dinodes := fun s => freshD s, freed := [] }

/-- A filesystem state whose table holds sector 7 open once, removed. -/
def fsRem7 : FsSt :=
  { table := [{ sector := 7, open_cnt := 1, removed := true, deny_write_cnt := 0,
                data := freshD 7 }],
    dmap := fun _ _ => 0, dinodes := fun s => freshD s, freed := [] }
/-! Helper facts about the embedded arithmetic. -/

theorem byte_to_sector_unfold (dmap : Nat → Nat → Nat) (d : InodeDisk) (pos : Int) :
    byte_to_sector dmap d pos =
      if pos < d.length ∧ 0 ≤ pos then
        if pos.toNat < 6144 then some (d.direct (pos.toNat / 512))
        else if pos.toNat < 71680 then
          some (dmap (d.indirect ((pos.toNat - 6144) / 65536))
            (((pos.toNat - 6144) % 65536) / 512))
        else if (pos.toNat - 71680) / 8388608 < 1 then
          some (dmap (dmap (d.dindirect ((pos.toNat - 71680) / 8388608))
              (((pos.toNat - 71680) % 8388608) / 65536))
            ((((pos.toNat - 71680) % 8388608) % 65536) / 512))
        else none
      else none := by
  simp only [byte_to_sector, BLOCK_SECTOR_SIZE, DIR_BLOCKS, INDIR_BLOCK_PTRS, INDIR_BLOCKS,
    DINDIR_BLOCKS]

/-- C1: for a well-formed inode (length at most the tree's 8460288-byte
capacity), `byte_to_sector` yields the `(block_sector_t) -1` sentinel
exactly for `pos < 0` or `pos ≥ length`; every in-range `pos` is dispatched
to the direct slot `pos / 512` below 12·512 bytes, to entry
`((pos − 12·512) mod 128·512) / 512` of the single-indirect block below
`(12+128)·512` bytes, and otherwise to the corresponding entry of the
level-2 block of the double-indirect tree; any offset past the
double-indirect range yields the sentinel for every inode. -/
theorem C1_byte_to_sector_dispatch (dmap : Nat → Nat → Nat) (d : InodeDisk) (pos : Int)
    (hlen : d.length ≤ 8460288) :
    (byte_to_sector dmap d pos = none ↔ (pos < 0 ∨ d.length ≤ pos)) ∧
    (0 ≤ pos → pos < d.length →
      (pos < 6144 → byte_to_sector dmap d pos = some (d.direct (pos.toNat / 512))) ∧
      (6144 ≤ pos → pos < 71680 →
        byte_to_sector dmap d pos =
          some (dmap (d.indirect 0) (((pos.toNat - 6144) % 65536) / 512))) ∧
      (71680 ≤ pos →
        byte_to_sector dmap d pos =
          some (dmap (dmap (d.dindirect 0) ((pos.toNat - 71680) / 65536))
            (((pos.toNat - 71680) % 65536) / 512)))) ∧
    (∀ d2 : InodeDisk, ∀ pos2 : Int, (8460288 : Int) ≤ pos2 →
      byte_to_sector dmap d2 pos2 = none) := by
  refine ⟨?_, ?_, ?_⟩
  · rw [byte_to_sector_unfold]
    constructor
    · intro h
      by_contra hc
      push_neg at hc
      obtain ⟨h1, h2⟩ := hc
      have hin : pos < d.length ∧ 0 ≤ pos := by omega
      have hp : (pos.toNat : Int) = pos := Int.toNat_of_nonneg hin.2
      have hub : pos.toNat < 8460288 := by omega
      simp only [hin, and_self, if_true] at h
      split_ifs at h with g1 g2 g3; simp at h
      omega
    · intro h
      have : ¬ (pos < d.length ∧ 0 ≤ pos) := by omega
      simp [this]
  · intro h0 h1
    have hp : (pos.toNat : Int) = pos := Int.toNat_of_nonneg h0
    have hub : pos.toNat < 8460288 := by omega
    rw [byte_to_sector_unfold]
    have hin : pos < d.length ∧ 0 ≤ pos := ⟨h1, h0⟩
    simp only [hin, and_self, if_true]
    refine ⟨?_, ?_, ?_⟩
    · intro hlt
      have : pos.toNat < 6144 := by omega
      simp [this]
    · intro hge hlt
      have g1 : ¬ pos.toNat < 6144 := by omega
      have g2 : pos.toNat < 71680 := by omega
      have g3 : (pos.toNat - 6144) / 65536 = 0 := by omega
      simp [g1, g2, g3]
    · intro hge
      have g1 : ¬ pos.toNat < 6144 := by omega
      have g2 : ¬ pos.toNat < 71680 := by omega
      have g3 : (pos.toNat - 71680) / 8388608 < 1 := by omega
      have g4 : (pos.toNat - 71680) % 8388608 = pos.toNat - 71680 := by omega
      have g5 : (pos.toNat - 71680) / 8388608 = 0 := by omega
      simp [g1, g2, g3, g4, g5]
  · intro d2 pos2 hge
    rw [byte_to_sector_unfold]
    by_cases hin : pos2 < d2.length ∧ 0 ≤ pos2
    · have hp : (pos2.toNat : Int) = pos2 := Int.toNat_of_nonneg hin.2
      have g1 : ¬ pos2.toNat < 6144 := by omega
      have g2 : ¬ pos2.toNat < 71680 := by omega
      have g3 : ¬ (pos2.toNat - 71680) / 8388608 < 1 := by omega
      simp [hin, g1, g2, g3]
    · simp [hin]

/-- Witness for C1 at a concrete inode of length 8000 and offset 6700
(single-indirect region). -/
theorem C1_byte_to_sector_dispatch_witness :
    byte_to_sector (fun _ _ => 5) { freshD 50 with length := 8000 } 6700 = some 5 := by
  have h := C1_byte_to_sector_dispatch (fun _ _ => 5) { freshD 50 with length := 8000 } 6700
    (by norm_num)
  exact (h.2.1 (by norm_num) (by norm_num)).2.1 (by norm_num) (by norm_num)

theorem byte_to_sector_isSome_in_range (dmap : Nat → Nat → Nat) (d : InodeDisk) (pos : Int)
    (h0 : 0 ≤ pos) (h1 : pos < d.length) (h2 : pos < 8460288) :
    (byte_to_sector dmap d pos).isSome = true := by
  have hp : (pos.toNat : Int) = pos := Int.toNat_of_nonneg h0
  rw [byte_to_sector_unfold]
  have hin : pos < d.length ∧ 0 ≤ pos := ⟨h1, h0⟩
  simp only [hin, and_self, if_true]
  by_cases g1 : pos.toNat < 6144
  · simp [g1]
  · by_cases g2 : pos.toNat < 71680
    · simp [g1, g2]
    · have g3 : (pos.toNat - 71680) / 8388608 < 1 := by omega
      simp [g1, g2, g3]

theorem byte_to_sector_none_out_of_range (dmap : Nat → Nat → Nat) (d : InodeDisk) (pos : Int)
    (h : pos < 0 ∨ d.length ≤ pos ∨ (8460288 : Int) ≤ pos) :
    byte_to_sector dmap d pos = none := by
  rw [byte_to_sector_unfold]
  by_cases hin : pos < d.length ∧ 0 ≤ pos
  · have hp : (pos.toNat : Int) = pos := Int.toNat_of_nonneg hin.2
    have hge : (8460288 : Int) ≤ pos := by omega
    have g1 : ¬ pos.toNat < 6144 := by omega
    have g2 : ¬ pos.toNat < 71680 := by omega
    have g3 : ¬ (pos.toNat - 71680) / 8388608 < 1 := by omega
    simp [hin, g1, g2, g3]
  · simp [hin]

/-- C7 counterexample: the claimed maximum 8,459,264 is not the value of
(12 + 128 + 128·128) · 512, and `byte_to_sector` happily maps offset
8,459,264 of a fully grown file instead of returning `NotPresent`. -/
theorem C7_counterexample :
    (12 + 128 + 128 * 128) * 512 = 8460288 ∧
    dFull.length = 8460288 ∧
    byte_to_sector (fun _ _ => 5) dFull 8459264 = some 5 := by
  refine ⟨by norm_num, by decide, by decide⟩

/-- C7 as amended: the maximum file size of the index tree is
(12 + 128 + 128·128) · 512 = 8,460,288 bytes; `byte_to_sector` maps every
offset strictly below 8,460,288 of a fully grown file, and returns
`NotPresent` for every offset at or above it. -/
theorem C7_max_file_size (dmap : Nat → Nat → Nat) (d : InodeDisk)
    (h : d.length = ((12 + 128 + 128 * 128) * 512 : Int)) :
    (12 + 128 + 128 * 128) * 512 = 8460288 ∧
    (∀ pos : Int, 0 ≤ pos → pos < 8460288 → (byte_to_sector dmap d pos).isSome = true) ∧
    (∀ pos : Int, (8460288 : Int) ≤ pos → byte_to_sector dmap d pos = none) := by
  refine ⟨by norm_num, ?_, ?_⟩
  · intro pos h0 h1
    exact byte_to_sector_isSome_in_range dmap d pos h0 (by omega) h1
  · intro pos hge
    exact byte_to_sector_none_out_of_range dmap d pos (Or.inr (Or.inr hge))

/-- Witness for C7 at the fully grown file: offset 8,460,287 is mapped,
offset 8,460,288 is not. -/
theorem C7_max_file_size_witness :
    (byte_to_sector (fun _ _ => 5) dFull 8460287).isSome = true ∧
    byte_to_sector (fun _ _ => 5) dFull 8460288 = none := by
  have h := C7_max_file_size (fun _ _ => 5) dFull (by decide)
  exact ⟨h.2.1 8460287 (by norm_num) (by norm_num), h.2.2 8460288 (by norm_num)⟩

/-! Control-flow lemmas for the extension loops.  They compute the
remaining sector count, the `goto done` flag, and the fields of the state
the later phases inspect, as functions of the input counters. -/

theorem dec32_eq (n : Nat) (h : 1 ≤ n) : dec32 n = n - 1 := by
  unfold dec32
  rw [if_neg (by omega)]

@[simp] theorem dirStep_d_dir_cnt (A : Nat → Option Nat) (st : ExtSt) :
    (dirStep A st).d.dir_cnt = st.d.dir_cnt + 1 := by simp [dirStep, writeZeros]

@[simp] theorem dirStep_d_length (A : Nat → Option Nat) (st : ExtSt) :
    (dirStep A st).d.length = st.d.length := by simp [dirStep, writeZeros]

@[simp] theorem dirStep_d_sector (A : Nat → Option Nat) (st : ExtSt) :
    (dirStep A st).d.sector = st.d.sector := by simp [dirStep, writeZeros]

@[simp] theorem dirStep_d_indir_cnt (A : Nat → Option Nat) (st : ExtSt) :
    (dirStep A st).d.indir_cnt = st.d.indir_cnt := by simp [dirStep, writeZeros]

@[simp] theorem dirStep_d_indir_curr_usage (A : Nat → Option Nat) (st : ExtSt) :
    (dirStep A st).d.indir_curr_usage = st.d.indir_curr_usage := by simp [dirStep, writeZeros]

@[simp] theorem dirStep_d_dindir_cnt (A : Nat → Option Nat) (st : ExtSt) :
    (dirStep A st).d.dindir_cnt = st.d.dindir_cnt := by simp [dirStep, writeZeros]

@[simp] theorem dirStep_d_dindir_curr_usage (A : Nat → Option Nat) (st : ExtSt) :
    (dirStep A st).d.dindir_curr_usage = st.d.dindir_curr_usage := by simp [dirStep, writeZeros]

@[simp] theorem dirStep_d_dindir_lv2_curr_usage (A : Nat → Option Nat) (st : ExtSt) :
    (dirStep A st).d.dindir_lv2_curr_usage = st.d.dindir_lv2_curr_usage := by
  simp [dirStep, writeZeros]

@[simp] theorem dirStep_dinodes (A : Nat → Option Nat) (st : ExtSt) :
    (dirStep A st).dinodes = st.dinodes := by simp [dirStep, writeZeros]

theorem extend_dir_spec (A : Nat → Option Nat) :
    ∀ fuel st n, st.d.dir_cnt ≤ DIR_BLOCKS → DIR_BLOCKS - st.d.dir_cnt ≤ fuel → 1 ≤ n →
    (extend_dir A fuel st n).2.1 = n - (DIR_BLOCKS - st.d.dir_cnt) ∧
    ((extend_dir A fuel st n).2.2 = true ↔ n ≤ DIR_BLOCKS - st.d.dir_cnt) ∧
    (extend_dir A fuel st n).1.d.length = st.d.length ∧
    (extend_dir A fuel st n).1.d.sector = st.d.sector ∧
    (extend_dir A fuel st n).1.d.indir_cnt = st.d.indir_cnt ∧
    (extend_dir A fuel st n).1.d.indir_curr_usage = st.d.indir_curr_usage ∧
    (extend_dir A fuel st n).1.d.dindir_cnt = st.d.dindir_cnt ∧
    (extend_dir A fuel st n).1.d.dindir_curr_usage = st.d.dindir_curr_usage ∧
    (extend_dir A fuel st n).1.d.dindir_lv2_curr_usage = st.d.dindir_lv2_curr_usage ∧
    (extend_dir A fuel st n).1.dinodes = st.dinodes := by
  intro fuel
  induction fuel with
  | zero =>
    intro st n h1 h2 h3
    refine ⟨?_, ?_, rfl, rfl, rfl, rfl, rfl, rfl, rfl, rfl⟩
    · show n = n - (DIR_BLOCKS - st.d.dir_cnt)
      omega
    · show (false = true ↔ n ≤ DIR_BLOCKS - st.d.dir_cnt)
      simp
      omega
  | succ f ih =>
    intro st n h1 h2 h3
    by_cases hc : st.d.dir_cnt < DIR_BLOCKS
    · rw [show extend_dir A (f + 1) st n =
          (if dec32 n = 0 then (dirStep A st, dec32 n, true)
           else extend_dir A f (dirStep A st) (dec32 n)) by
        simp [extend_dir, hc]]
      rw [dec32_eq n h3]
      by_cases hz : n - 1 = 0
      · rw [if_pos hz]
        refine ⟨by simp; omega, by simp; omega, by simp, by simp, by simp, by simp, by simp,
          by simp, by simp, by simp⟩
      · rw [if_neg hz]
        obtain ⟨g1, g2, g3, g4, g5, g6, g7, g8, g9, g10⟩ :=
          ih (dirStep A st) (n - 1) (by simp; omega) (by simp; omega) (by omega)
        refine ⟨?_, ?_, ?_, ?_, ?_, ?_, ?_, ?_, ?_, ?_⟩
        · rw [g1]; simp; omega
        · rw [g2]; simp; omega
        · rw [g3]; simp
        · rw [g4]; simp
        · rw [g5]; simp
        · rw [g6]; simp
        · rw [g7]; simp
        · rw [g8]; simp
        · rw [g9]; simp
        · rw [g10]; simp
    · have h0 : DIR_BLOCKS - st.d.dir_cnt = 0 := by omega
      rw [show extend_dir A (f + 1) st n = (st, n, false) by simp [extend_dir, hc]]
      refine ⟨?_, ?_, rfl, rfl, rfl, rfl, rfl, rfl, rfl, rfl⟩
      · show n = n - (DIR_BLOCKS - st.d.dir_cnt)
        omega
      · show (false = true ↔ n ≤ DIR_BLOCKS - st.d.dir_cnt)
        simp
        omega

@[simp] theorem indirFillStep_d_indir_curr_usage (A : Nat → Option Nat) (st : ExtSt) (blk : Nat → Nat) :
    (indirFillStep A st blk).1.d.indir_curr_usage = st.d.indir_curr_usage + 1 := by
  simp [indirFillStep, writeZeros]

@[simp] theorem indirFillStep_d_length (A : Nat → Option Nat) (st : ExtSt) (blk : Nat → Nat) :
    (indirFillStep A st blk).1.d.length = st.d.length := by simp [indirFillStep, writeZeros]

@[simp] theorem indirFillStep_d_sector (A : Nat → Option Nat) (st : ExtSt) (blk : Nat → Nat) :
    (indirFillStep A st blk).1.d.sector = st.d.sector := by simp [indirFillStep, writeZeros]

@[simp] theorem indirFillStep_d_dir_cnt (A : Nat → Option Nat) (st : ExtSt) (blk : Nat → Nat) :
    (indirFillStep A st blk).1.d.dir_cnt = st.d.dir_cnt := by simp [indirFillStep, writeZeros]

@[simp] theorem indirFillStep_d_indir_cnt (A : Nat → Option Nat) (st : ExtSt) (blk : Nat → Nat) :
    (indirFillStep A st blk).1.d.indir_cnt = st.d.indir_cnt := by simp [indirFillStep, writeZeros]

@[simp] theorem indirFillStep_d_indirect (A : Nat → Option Nat) (st : ExtSt) (blk : Nat → Nat) :
    (indirFillStep A st blk).1.d.indirect = st.d.indirect := by simp [indirFillStep, writeZeros]

@[simp] theorem indirFillStep_d_dindir_cnt (A : Nat → Option Nat) (st : ExtSt) (blk : Nat → Nat) :
    (indirFillStep A st blk).1.d.dindir_cnt = st.d.dindir_cnt := by simp [indirFillStep, writeZeros]

@[simp] theorem indirFillStep_d_dindir_curr_usage (A : Nat → Option Nat) (st : ExtSt) (blk : Nat → Nat) :
    (indirFillStep A st blk).1.d.dindir_curr_usage = st.d.dindir_curr_usage := by
  simp [indirFillStep, writeZeros]

@[simp] theorem indirFillStep_d_dindir_lv2_curr_usage (A : Nat → Option Nat) (st : ExtSt) (blk : Nat → Nat) :
    (indirFillStep A st blk).1.d.dindir_lv2_curr_usage = st.d.dindir_lv2_curr_usage := by
  simp [indirFillStep, writeZeros]

@[simp] theorem indirFillStep_dinodes (A : Nat → Option Nat) (st : ExtSt) (blk : Nat → Nat) :
    (indirFillStep A st blk).1.dinodes = st.dinodes := by simp [indirFillStep, writeZeros]

theorem extend_indir_fill_spec (A : Nat → Option Nat) :
    ∀ fuel st blk n, st.d.indir_curr_usage ≤ INDIR_BLOCK_PTRS →
    INDIR_BLOCK_PTRS - st.d.indir_curr_usage ≤ fuel → 1 ≤ n →
    (extend_indir_fill A fuel st blk n).2.2 = n - (INDIR_BLOCK_PTRS - st.d.indir_curr_usage) ∧
    (extend_indir_fill A fuel st blk n).1.d.length = st.d.length ∧
    (extend_indir_fill A fuel st blk n).1.d.sector = st.d.sector ∧
    (extend_indir_fill A fuel st blk n).1.d.dir_cnt = st.d.dir_cnt ∧
    (extend_indir_fill A fuel st blk n).1.d.indir_cnt = st.d.indir_cnt ∧
    (extend_indir_fill A fuel st blk n).1.d.indirect = st.d.indirect ∧
    (extend_indir_fill A fuel st blk n).1.d.dindir_cnt = st.d.dindir_cnt ∧
    (extend_indir_fill A fuel st blk n).1.d.dindir_curr_usage = st.d.dindir_curr_usage ∧
    (extend_indir_fill A fuel st blk n).1.d.dindir_lv2_curr_usage = st.d.dindir_lv2_curr_usage ∧
    (extend_indir_fill A fuel st blk n).1.dinodes = st.dinodes := by
  intro fuel
  induction fuel with
  | zero =>
    intro st blk n h1 h2 h3
    refine ⟨?_, rfl, rfl, rfl, rfl, rfl, rfl, rfl, rfl, rfl⟩
    show n = n - (INDIR_BLOCK_PTRS - st.d.indir_curr_usage)
    omega
  | succ f ih =>
    intro st blk n h1 h2 h3
    by_cases hc : st.d.indir_curr_usage < INDIR_BLOCK_PTRS
    · rw [show extend_indir_fill A (f + 1) st blk n =
          (if dec32 n = 0 then ((indirFillStep A st blk).1, (indirFillStep A st blk).2, dec32 n)
           else extend_indir_fill A f (indirFillStep A st blk).1 (indirFillStep A st blk).2 (dec32 n)) by
        simp [extend_indir_fill, hc]]
      rw [dec32_eq n h3]
      by_cases hz : n - 1 = 0
      · rw [if_pos hz]
        refine ⟨by simp; omega, by simp, by simp, by simp, by simp, by simp, by simp, by simp,
          by simp, by simp⟩
      · rw [if_neg hz]
        obtain ⟨g1, g2, g3, g4, g5, g6, g7, g8, g9, g10⟩ :=
          ih (indirFillStep A st blk).1 (indirFillStep A st blk).2 (n - 1)
            (by simp; omega) (by simp; omega) (by omega)
        exact ⟨by rw [g1]; simp; omega, by rw [g2]; simp, by rw [g3]; simp, by rw [g4]; simp,
          by rw [g5]; simp, by rw [g6]; simp, by rw [g7]; simp, by rw [g8]; simp,
          by rw [g9]; simp, by rw [g10]; simp⟩
    · rw [show extend_indir_fill A (f + 1) st blk n = (st, blk, n) by
        simp [extend_indir_fill, hc]]
      refine ⟨?_, rfl, rfl, rfl, rfl, rfl, rfl, rfl, rfl, rfl⟩
      show n = n - (INDIR_BLOCK_PTRS - st.d.indir_curr_usage)
      omega

theorem indirAllocStep_spec0 (A : Nat → Option Nat) (st : ExtSt) (h0 : st.d.indir_cnt = 0) :
    (indirAllocStep A st).d.indir_cnt = 1 ∧
    (indirAllocStep A st).d.indir_curr_usage = 0 ∧
    (indirAllocStep A st).d.length = st.d.length ∧
    (indirAllocStep A st).d.sector = st.d.sector ∧
    (indirAllocStep A st).d.dir_cnt = st.d.dir_cnt ∧
    (indirAllocStep A st).d.dindir_cnt = st.d.dindir_cnt ∧
    (indirAllocStep A st).d.dindir_curr_usage = st.d.dindir_curr_usage ∧
    (indirAllocStep A st).d.dindir_lv2_curr_usage = st.d.dindir_lv2_curr_usage ∧
    (indirAllocStep A st).dinodes = st.dinodes := by
  simp [indirAllocStep, h0]

theorem extend_indir_spec (A : Nat → Option Nat) (st : ExtSt) (n : Nat)
    (h1 : st.d.indir_cnt ≤ INDIR_BLOCKS) (h2 : st.d.indir_curr_usage ≤ INDIR_BLOCK_PTRS)
    (h3 : 1 ≤ n) :
    (extend_indir A (INDIR_BLOCKS + 1) st n).2.1 =
      n - (if st.d.indir_cnt = 0 then INDIR_BLOCK_PTRS else 0) ∧
    ((extend_indir A (INDIR_BLOCKS + 1) st n).2.2 = true ↔
      n ≤ (if st.d.indir_cnt = 0 then INDIR_BLOCK_PTRS else 0)) ∧
    (extend_indir A (INDIR_BLOCKS + 1) st n).1.d.length = st.d.length ∧
    (extend_indir A (INDIR_BLOCKS + 1) st n).1.d.sector = st.d.sector ∧
    (extend_indir A (INDIR_BLOCKS + 1) st n).1.d.dir_cnt = st.d.dir_cnt ∧
    (extend_indir A (INDIR_BLOCKS + 1) st n).1.d.dindir_cnt = st.d.dindir_cnt ∧
    (extend_indir A (INDIR_BLOCKS + 1) st n).1.d.dindir_curr_usage = st.d.dindir_curr_usage ∧
    (extend_indir A (INDIR_BLOCKS + 1) st n).1.d.dindir_lv2_curr_usage = st.d.dindir_lv2_curr_usage ∧
    (extend_indir A (INDIR_BLOCKS + 1) st n).1.dinodes = st.dinodes := by
  by_cases h0 : st.d.indir_cnt = 0
  · have hc : st.d.indir_cnt < INDIR_BLOCKS := by rw [h0]; decide
    obtain ⟨a1, a2, a3, a4, a5, a6, a7, a8, a9⟩ := indirAllocStep_spec0 A st h0
    obtain ⟨g1, g2, g3, g4, g5, g6, g7, g8, g9, g10⟩ :=
      extend_indir_fill_spec A INDIR_BLOCK_PTRS (indirAllocStep A st)
        ((indirAllocStep A st).dmap
          ((indirAllocStep A st).d.indirect ((indirAllocStep A st).d.indir_cnt - 1))) n
        (by rw [a2]; decide) (by rw [a2]; omega) h3
    simp only [a1, a2, a3, a4, a5, a6, a7, a8, a9, Nat.sub_self, Nat.sub_zero]
      at g1 g2 g3 g4 g5 g6 g7 g8 g9 g10
    simp only [extend_indir, hc, if_true]
    simp only [a1, a2, Nat.sub_self, Nat.sub_zero, h0, if_true]
    rw [g1]
    by_cases hz : n - INDIR_BLOCK_PTRS = 0
    · rw [if_pos hz]
      refine ⟨rfl, by simp; omega, ?_, ?_, ?_, ?_, ?_, ?_, ?_⟩ <;>
        simp only [g2, g3, g4, g5, g6, g7, g8, g9, g10, g1]
    · rw [if_neg hz]
      rw [show (INDIR_BLOCKS : Nat) = 0 + 1 from rfl]
      have hlt : ((1 : Nat) < 0 + 1) = False := by simp
      simp only [extend_indir, g5, hlt, if_false]
      refine ⟨by trivial, by simp; omega, ?_, ?_, ?_, ?_, ?_, ?_, ?_⟩ <;>
        simp only [g2, g3, g4, g5, g6, g7, g8, g9, g10, g1]
  · have hone : (INDIR_BLOCKS : Nat) = 1 := by decide
    have hnc : ¬ st.d.indir_cnt < INDIR_BLOCKS := by omega
    have he : extend_indir A (INDIR_BLOCKS + 1) st n = (st, n, false) := by
      rw [show (INDIR_BLOCKS + 1 : Nat) = INDIR_BLOCKS + 0 + 1 from rfl]
      simp only [extend_indir, hnc, if_false]
    rw [he]
    refine ⟨?_, ?_, rfl, rfl, rfl, rfl, rfl, rfl, rfl⟩
    · show n = n - (if st.d.indir_cnt = 0 then INDIR_BLOCK_PTRS else 0)
      rw [if_neg h0]
      omega
    · show (false = true ↔ n ≤ (if st.d.indir_cnt = 0 then INDIR_BLOCK_PTRS else 0))
      rw [if_neg h0]
      simp
      omega

@[simp] theorem dindirFillStep_d_dindir_lv2_curr_usage (A : Nat → Option Nat) (st : ExtSt) (blk : Nat → Nat) :
    (dindirFillStep A st blk).1.d.dindir_lv2_curr_usage = st.d.dindir_lv2_curr_usage + 1 := by
  simp [dindirFillStep, writeZeros]

@[simp] theorem dindirFillStep_d_dindir_curr_usage (A : Nat → Option Nat) (st : ExtSt) (blk : Nat → Nat) :
    (dindirFillStep A st blk).1.d.dindir_curr_usage = st.d.dindir_curr_usage := by
  simp [dindirFillStep, writeZeros]

@[simp] theorem dindirFillStep_d_dindir_cnt (A : Nat → Option Nat) (st : ExtSt) (blk : Nat → Nat) :
    (dindirFillStep A st blk).1.d.dindir_cnt = st.d.dindir_cnt := by
  simp [dindirFillStep, writeZeros]

@[simp] theorem dindirFillStep_d_dindirect (A : Nat → Option Nat) (st : ExtSt) (blk : Nat → Nat) :
    (dindirFillStep A st blk).1.d.dindirect = st.d.dindirect := by
  simp [dindirFillStep, writeZeros]

@[simp] theorem dindirFillStep_d_length (A : Nat → Option Nat) (st : ExtSt) (blk : Nat → Nat) :
    (dindirFillStep A st blk).1.d.length = st.d.length := by
  simp [dindirFillStep, writeZeros]

@[simp] theorem dindirFillStep_d_sector (A : Nat → Option Nat) (st : ExtSt) (blk : Nat → Nat) :
    (dindirFillStep A st blk).1.d.sector = st.d.sector := by
  simp [dindirFillStep, writeZeros]

@[simp] theorem dindirFillStep_dinodes (A : Nat → Option Nat) (st : ExtSt) (blk : Nat → Nat) :
    (dindirFillStep A st blk).1.dinodes = st.dinodes := by
  simp [dindirFillStep, writeZeros]

theorem extend_dindir_fill_spec (A : Nat → Option Nat) :
    ∀ fuel st blk n, st.d.dindir_lv2_curr_usage ≤ INDIR_BLOCK_PTRS →
    INDIR_BLOCK_PTRS - st.d.dindir_lv2_curr_usage ≤ fuel → 1 ≤ n →
    (extend_dindir_fill A fuel st blk n).2.2 =
      n - (INDIR_BLOCK_PTRS - st.d.dindir_lv2_curr_usage) ∧
    (extend_dindir_fill A fuel st blk n).1.d.dindir_lv2_curr_usage =
      min INDIR_BLOCK_PTRS (st.d.dindir_lv2_curr_usage + n) ∧
    (extend_dindir_fill A fuel st blk n).1.d.dindir_curr_usage = st.d.dindir_curr_usage ∧
    (extend_dindir_fill A fuel st blk n).1.d.dindir_cnt = st.d.dindir_cnt ∧
    (extend_dindir_fill A fuel st blk n).1.d.dindirect = st.d.dindirect ∧
    (extend_dindir_fill A fuel st blk n).1.d.length = st.d.length ∧
    (extend_dindir_fill A fuel st blk n).1.d.sector = st.d.sector ∧
    (extend_dindir_fill A fuel st blk n).1.dinodes = st.dinodes := by
  intro fuel
  induction fuel with
  | zero =>
    intro st blk n h1 h2 h3
    refine ⟨?_, ?_, rfl, rfl, rfl, rfl, rfl, rfl⟩
    · show n = n - (INDIR_BLOCK_PTRS - st.d.dindir_lv2_curr_usage)
      omega
    · show st.d.dindir_lv2_curr_usage = min INDIR_BLOCK_PTRS (st.d.dindir_lv2_curr_usage + n)
      omega
  | succ f ih =>
    intro st blk n h1 h2 h3
    by_cases hc : st.d.dindir_lv2_curr_usage < INDIR_BLOCK_PTRS
    · rw [show extend_dindir_fill A (f + 1) st blk n =
          (if dec32 n = 0 then ((dindirFillStep A st blk).1, (dindirFillStep A st blk).2, dec32 n)
           else extend_dindir_fill A f (dindirFillStep A st blk).1 (dindirFillStep A st blk).2 (dec32 n)) by
        simp [extend_dindir_fill, hc]]
      rw [dec32_eq n h3]
      by_cases hz : n - 1 = 0
      · rw [if_pos hz]
        refine ⟨by simp; omega, by simp; omega, by simp, by simp, by simp, by simp, by simp,
          by simp⟩
      · rw [if_neg hz]
        obtain ⟨g1, g2, g3, g4, g5, g6, g7, g8⟩ :=
          ih (dindirFillStep A st blk).1 (dindirFillStep A st blk).2 (n - 1)
            (by simp; omega) (by simp; omega) (by omega)
        exact ⟨by rw [g1]; simp; omega, by rw [g2]; simp; omega, by rw [g3]; simp,
          by rw [g4]; simp, by rw [g5]; simp, by rw [g6]; simp, by rw [g7]; simp,
          by rw [g8]; simp⟩
    · rw [show extend_dindir_fill A (f + 1) st blk n = (st, blk, n) by
        simp [extend_dindir_fill, hc]]
      refine ⟨?_, ?_, rfl, rfl, rfl, rfl, rfl, rfl⟩
      · show n = n - (INDIR_BLOCK_PTRS - st.d.dindir_lv2_curr_usage)
        omega
      · show st.d.dindir_lv2_curr_usage = min INDIR_BLOCK_PTRS (st.d.dindir_lv2_curr_usage + n)
        omega

theorem dindirMidAllocStep_spec (A : Nat → Option Nat) (st : ExtSt) (dblk : Nat → Nat)
    (h : st.d.dindir_curr_usage = 0 ∨ st.d.dindir_lv2_curr_usage = INDIR_BLOCK_PTRS) :
    (dindirMidAllocStep A st dblk).1.d.dindir_curr_usage = st.d.dindir_curr_usage + 1 ∧
    (dindirMidAllocStep A st dblk).1.d.dindir_lv2_curr_usage = 0 ∧
    (dindirMidAllocStep A st dblk).1.d.dindir_cnt = st.d.dindir_cnt ∧
    (dindirMidAllocStep A st dblk).1.d.dindirect = st.d.dindirect ∧
    (dindirMidAllocStep A st dblk).1.d.length = st.d.length ∧
    (dindirMidAllocStep A st dblk).1.d.sector = st.d.sector ∧
    (dindirMidAllocStep A st dblk).1.dinodes = st.dinodes := by
  have hcond : st.d.dindir_curr_usage = 0 ∨ st.d.dindir_lv2_curr_usage = INDIR_BLOCK_PTRS := h
  simp [dindirMidAllocStep, hcond]

theorem extend_dindir_mid_spec (A : Nat → Option Nat) :
    ∀ fuel st dblk n, st.d.dindir_curr_usage ≤ INDIR_BLOCK_PTRS →
    st.d.dindir_lv2_curr_usage ≤ INDIR_BLOCK_PTRS →
    (st.d.dindir_curr_usage = 0 ∨ st.d.dindir_lv2_curr_usage = INDIR_BLOCK_PTRS) →
    INDIR_BLOCK_PTRS + 1 - st.d.dindir_curr_usage ≤ fuel → 1 ≤ n →
    (extend_dindir_mid A fuel st dblk n).2.2 =
      n - (INDIR_BLOCK_PTRS - st.d.dindir_curr_usage) * INDIR_BLOCK_PTRS ∧
    (extend_dindir_mid A fuel st dblk n).1.d.dindir_cnt = st.d.dindir_cnt ∧
    (extend_dindir_mid A fuel st dblk n).1.d.length = st.d.length ∧
    (extend_dindir_mid A fuel st dblk n).1.d.sector = st.d.sector ∧
    (extend_dindir_mid A fuel st dblk n).1.dinodes = st.dinodes := by
  intro fuel
  induction fuel with
  | zero =>
    intro st dblk n h1 h2 h0 hf h3
    exact absurd hf (by omega)
  | succ f ih =>
    intro st dblk n h1 h2 h0 hf h3
    by_cases hc : st.d.dindir_curr_usage < INDIR_BLOCK_PTRS
    · obtain ⟨a1, a2, a3, a4, a5, a6, a7⟩ := dindirMidAllocStep_spec A st dblk h0
      obtain ⟨g1, g2, g3, g4, g5, g6, g7, g8⟩ :=
        extend_dindir_fill_spec A INDIR_BLOCK_PTRS (dindirMidAllocStep A st dblk).1
          ((dindirMidAllocStep A st dblk).1.dmap
            ((dindirMidAllocStep A st dblk).2 ((dindirMidAllocStep A st dblk).1.d.dindir_curr_usage - 1))) n
          (by rw [a2]; decide) (by rw [a2]; omega) h3
      simp only [a1, a2, a3, a4, a5, a6, a7, Nat.sub_self, Nat.sub_zero]
        at g1 g2 g3 g4 g5 g6 g7 g8
      simp only [extend_dindir_mid, hc, if_true]
      simp only [a1, a2, a3, a4, a5, a6, a7, Nat.sub_self, Nat.sub_zero]
      rw [g1]
      by_cases hz : n - INDIR_BLOCK_PTRS = 0
      · rw [if_pos hz]
        refine ⟨?_, ?_, ?_, ?_, ?_⟩ <;> simp only [g1, g2, g3, g4, g5, g6, g7, g8]
        · show n - INDIR_BLOCK_PTRS = n - (INDIR_BLOCK_PTRS - st.d.dindir_curr_usage) * INDIR_BLOCK_PTRS
          have hp : (INDIR_BLOCK_PTRS : Nat) = 128 := by decide
          rw [hp] at hz ⊢
          omega
      · rw [if_neg hz]
        obtain ⟨i1, i2, i3, i4, i5⟩ := ih
          ({ (extend_dindir_fill A INDIR_BLOCK_PTRS (dindirMidAllocStep A st dblk).1
                ((dindirMidAllocStep A st dblk).1.dmap
                  ((dindirMidAllocStep A st dblk).2 (st.d.dindir_curr_usage + 1 - 1))) n).1 with
              dmap := Function.update
                (extend_dindir_fill A INDIR_BLOCK_PTRS (dindirMidAllocStep A st dblk).1
                  ((dindirMidAllocStep A st dblk).1.dmap
                    ((dindirMidAllocStep A st dblk).2 (st.d.dindir_curr_usage + 1 - 1))) n).1.dmap
                ((dindirMidAllocStep A st dblk).2
                  ((extend_dindir_fill A INDIR_BLOCK_PTRS (dindirMidAllocStep A st dblk).1
                    ((dindirMidAllocStep A st dblk).1.dmap
                      ((dindirMidAllocStep A st dblk).2 (st.d.dindir_curr_usage + 1 - 1))) n).1.d.dindir_curr_usage - 1))
                (extend_dindir_fill A INDIR_BLOCK_PTRS (dindirMidAllocStep A st dblk).1
                  ((dindirMidAllocStep A st dblk).1.dmap
                    ((dindirMidAllocStep A st dblk).2 (st.d.dindir_curr_usage + 1 - 1))) n).2.1 })
          (dindirMidAllocStep A st dblk).2 (n - INDIR_BLOCK_PTRS)
          (by simp only [g3]; omega) (by simp only [g2]; omega)
          (by right; simp only [g2]; exact min_eq_left (by omega))
          (by simp only [g3]; omega) (by omega)
        refine ⟨?_, ?_, ?_, ?_, ?_⟩
        · rw [i1]
          simp only [g3]
          have hp : (INDIR_BLOCK_PTRS : Nat) = 128 := by decide
          rw [hp] at hz ⊢
          omega
        · rw [i2]; simp only [g4]
        · rw [i3]; simp only [g6]
        · rw [i4]; simp only [g7]
        · rw [i5]; simp only [g8]
    · have hu : st.d.dindir_curr_usage = INDIR_BLOCK_PTRS := by omega
      rw [show extend_dindir_mid A (f + 1) st dblk n = (st, dblk, n) by
        simp [extend_dindir_mid, hc]]
      refine ⟨?_, rfl, rfl, rfl, rfl⟩
      show n = n - (INDIR_BLOCK_PTRS - st.d.dindir_curr_usage) * INDIR_BLOCK_PTRS
      rw [hu]
      simp

theorem dindirAllocStep_spec0 (A : Nat → Option Nat) (st : ExtSt) (h0 : st.d.dindir_cnt = 0) :
    (dindirAllocStep A st).d.dindir_cnt = 1 ∧
    (dindirAllocStep A st).d.dindir_curr_usage = 0 ∧
    (dindirAllocStep A st).d.dindir_lv2_curr_usage = st.d.dindir_lv2_curr_usage ∧
    (dindirAllocStep A st).d.length = st.d.length ∧
    (dindirAllocStep A st).d.sector = st.d.sector ∧
    (dindirAllocStep A st).dinodes = st.dinodes := by
  simp [dindirAllocStep, h0]

theorem extend_dindir_spec (A : Nat → Option Nat) (st : ExtSt) (n : Nat)
    (h1 : st.d.dindir_cnt ≤ DINDIR_BLOCKS) (h2 : st.d.dindir_curr_usage ≤ INDIR_BLOCK_PTRS)
    (h4 : st.d.dindir_lv2_curr_usage ≤ INDIR_BLOCK_PTRS) (h3 : 1 ≤ n) :
    (extend_dindir A (DINDIR_BLOCKS + 1) st n).2.1 =
      n - (if st.d.dindir_cnt = 0 then INDIR_BLOCK_PTRS * INDIR_BLOCK_PTRS else 0) ∧
    ((extend_dindir A (DINDIR_BLOCKS + 1) st n).2.2 = true ↔
      n ≤ (if st.d.dindir_cnt = 0 then INDIR_BLOCK_PTRS * INDIR_BLOCK_PTRS else 0)) ∧
    (extend_dindir A (DINDIR_BLOCKS + 1) st n).1.d.length = st.d.length ∧
    (extend_dindir A (DINDIR_BLOCKS + 1) st n).1.d.sector = st.d.sector ∧
    (extend_dindir A (DINDIR_BLOCKS + 1) st n).1.dinodes = st.dinodes := by
  by_cases h0 : st.d.dindir_cnt = 0
  · have hc : st.d.dindir_cnt < DINDIR_BLOCKS := by rw [h0]; decide
    obtain ⟨a1, a2, a3, a4, a5, a6⟩ := dindirAllocStep_spec0 A st h0
    obtain ⟨g1, g2, g3, g4, g5⟩ :=
      extend_dindir_mid_spec A 130 (dindirAllocStep A st)
        ((dindirAllocStep A st).dmap
          ((dindirAllocStep A st).d.dindirect ((dindirAllocStep A st).d.dindir_cnt - 1))) n
        (by rw [a2]; decide) (by rw [a3]; omega) (by left; rw [a2]) (by rw [a2]; decide) h3
    simp only [a1, a2, a3, a4, a5, a6, Nat.sub_self, Nat.sub_zero] at g1 g2 g3 g4 g5
    simp only [extend_dindir, hc, if_true]
    simp only [a1, a2, a3, a4, a5, a6, Nat.sub_self, Nat.sub_zero, h0, if_true]
    rw [g1]
    by_cases hz : n - INDIR_BLOCK_PTRS * INDIR_BLOCK_PTRS = 0
    · rw [if_pos hz]
      refine ⟨rfl, by simp; omega, ?_, ?_, ?_⟩ <;> simp only [g2, g3, g4, g5]
    · rw [if_neg hz]
      rw [show (DINDIR_BLOCKS : Nat) = 0 + 1 from rfl]
      have hlt : ((1 : Nat) < 0 + 1) = False := by simp
      simp only [extend_dindir, g2, hlt, if_false]
      refine ⟨by trivial, by simp; omega, ?_, ?_, ?_⟩ <;> simp only [g2, g3, g4, g5]
  · have hone : (DINDIR_BLOCKS : Nat) = 1 := by decide
    have hnc : ¬ st.d.dindir_cnt < DINDIR_BLOCKS := by omega
    have he : extend_dindir A (DINDIR_BLOCKS + 1) st n = (st, n, false) := by
      rw [show (DINDIR_BLOCKS + 1 : Nat) = DINDIR_BLOCKS + 0 + 1 from rfl]
      simp only [extend_dindir, hnc, if_false]
    rw [he]
    refine ⟨?_, ?_, rfl, rfl, rfl⟩
    · show n = n - (if st.d.dindir_cnt = 0 then INDIR_BLOCK_PTRS * INDIR_BLOCK_PTRS else 0)
      rw [if_neg h0]
      omega
    · show (false = true ↔ n ≤ (if st.d.dindir_cnt = 0 then INDIR_BLOCK_PTRS * INDIR_BLOCK_PTRS else 0))
      rw [if_neg h0]
      simp
      omega

theorem bytes_to_total_sectors_eq (L : Int) (h0 : 0 ≤ L) (h1 : L < 2 ^ 31) :
    bytes_to_total_sectors L = (L.toNat + 511) / 512 := by
  obtain ⟨k, rfl⟩ := Int.eq_ofNat_of_zero_le h0
  have hk : k < 2 ^ 31 := by exact_mod_cast h1
  have h2 : ((k : Int) + (BLOCK_SECTOR_SIZE : Int) - 1) = ((k + 511 : Nat) : Int) := by
    have hb : ((BLOCK_SECTOR_SIZE : Nat) : Int) = 512 := rfl
    push_cast
    omega
  have h5 : (k + 511) / BLOCK_SECTOR_SIZE < U32MOD := by
    have hb : (BLOCK_SECTOR_SIZE : Nat) = 512 := rfl
    have hu : (U32MOD : Nat) = 4294967296 := by norm_num [U32MOD]
    rw [hb]
    omega
  unfold bytes_to_total_sectors u32ofInt
  rw [h2, ← Int.ofNat_tdiv]
  rw [Int.emod_eq_of_lt (Int.ofNat_nonneg _) (by exact_mod_cast h5)]
  rw [Int.toNat_natCast]
  simp [BLOCK_SECTOR_SIZE]

theorem sub32_eq (a b : Nat) (hb : b ≤ a) (ha : a < 2 ^ 32) : sub32 a b = a - b := by
  unfold sub32
  have hu : (U32MOD : Nat) = 4294967296 := by norm_num [U32MOD]
  rw [hu]
  omega

theorem toInt32_eq (u : Nat) (h : u < 2 ^ 31) : toInt32 u = (u : Int) := by
  unfold toInt32
  have hu : (U32MOD : Nat) = 4294967296 := by norm_num [U32MOD]
  rw [hu]
  rw [Nat.mod_eq_of_lt (by omega)]
  rw [if_pos (by omega)]

theorem u32ofInt_eq (i : Int) (h0 : 0 ≤ i) (h1 : i < 2 ^ 32) : u32ofInt i = i.toNat := by
  unfold u32ofInt
  have hu : ((U32MOD : Nat) : Int) = 4294967296 := by norm_num [U32MOD]
  rw [hu]
  rw [Int.emod_eq_of_lt h0 (by omega)]

/-- Well-formedness bounds the accounted length: at most 16524 sectors, and
remaining capacity plus used sectors always covers at least one sector. -/
theorem WF_bounds (d : InodeDisk) (hwf : WF d) :
    d.length.toNat ≤ 8460288 ∧
    (d.length.toNat + 511) / 512 + capRem d ≤ 16524 ∧
    (1 ≤ (d.length.toNat + 511) / 512 + capRem d) := by
  obtain ⟨w1, w2, w3, w4, w5, w6, w7, w8⟩ := hwf
  unfold sectorsUsed at w8
  unfold capRem
  simp only [DIR_BLOCKS, INDIR_BLOCKS, DINDIR_BLOCKS, INDIR_BLOCK_PTRS] at w1 w2 w3 w4 w5 w6 w8 ⊢
  by_cases hi : d.indir_cnt = 0 <;> by_cases hd : d.dindir_cnt = 0 <;>
    simp only [hi, hd, if_true, if_false] at w8 ⊢ <;> omega

theorem extend_writeback_spec (X : ExtSt) (l : Int) :
    (extend_writeback X l).2 = l ∧
    (extend_writeback X l).1.d.length = l ∧
    (extend_writeback X l).1.d.sector = X.d.sector ∧
    (extend_writeback X l).1.dinodes X.d.sector = (extend_writeback X l).1.d := by
  refine ⟨rfl, rfl, rfl, ?_⟩
  simp [extend_writeback]

/-- Full characterisation of `dinode_extend` on a well-formed inode that is
being extended: the call succeeds (the ASSERT cannot fire), the returned
length is `new_length − 512·(needed − capacity)` — hence `new_length` itself
whenever the remaining tree capacity covers the needed sectors — the
in-memory record carries that length, and the record was written back to its
own sector. -/
theorem dinode_extend_master (A : Nat → Option Nat) (st : ExtSt) (nl : Int)
    (hwf : WF st.d) (hle : st.d.length ≤ nl) (hub : nl < 2 ^ 31) :
    ∃ st' r, dinode_extend A st nl = some (st', r) ∧
      r = nl - 512 * ((((nl.toNat + 511) / 512 - (st.d.length.toNat + 511) / 512) -
        capRem st.d : Nat) : Int) ∧
      st'.d.length = r ∧ st'.d.sector = st.d.sector ∧ st'.dinodes st.d.sector = st'.d := by
  have h0L : 0 ≤ st.d.length := hwf.2.2.2.2.2.2.1
  have hBnd := WF_bounds st.d hwf
  have hLub : st.d.length < 2 ^ 31 := by omega
  have h0n : 0 ≤ nl := le_trans h0L hle
  have hbL := bytes_to_total_sectors_eq st.d.length h0L hLub
  have hbN := bytes_to_total_sectors_eq nl h0n hub
  have hmono : (st.d.length.toNat + 511) / 512 ≤ (nl.toNat + 511) / 512 := by omega
  have hn0 : sub32 (bytes_to_total_sectors nl) (bytes_to_total_sectors st.d.length) =
      (nl.toNat + 511) / 512 - (st.d.length.toNat + 511) / 512 := by
    rw [hbL, hbN]
    exact sub32_eq _ _ hmono (by omega)
  simp only [dinode_extend, hn0]
  set NN := (nl.toNat + 511) / 512 - (st.d.length.toNat + 511) / 512 with hNN
  rw [if_neg (by omega : ¬ ((NN : Int) < 0))]
  by_cases hz0 : NN = 0
  · rw [if_pos hz0]
    obtain ⟨w1, w2, w3, w4⟩ := extend_writeback_spec st nl
    refine ⟨_, _, rfl, ?_, w2, w3, w4⟩
    rw [hz0]
    simp
  · rw [if_neg hz0]
    have hn1 : 1 ≤ NN := by omega
    obtain ⟨d1, d2, d3, d4, d5, d6, d7, d8, d9, d10⟩ :=
      extend_dir_spec A (DIR_BLOCKS + 1) st NN hwf.1 (by omega) hn1
    set R1 := extend_dir A (DIR_BLOCKS + 1) st NN with hR1
    by_cases hdone1 : R1.2.2 = true
    · rw [if_pos hdone1]
      have hle1 := d2.mp hdone1
      obtain ⟨w1, w2, w3, w4⟩ := extend_writeback_spec R1.1 nl
      have hcap : NN - capRem st.d = 0 := by
        unfold capRem
        omega
      refine ⟨_, _, rfl, ?_, w2, w3.trans d4, d4 ▸ w4⟩
      rw [hcap]
      simp
    · rw [if_neg hdone1]
      have hnd1 := (not_iff_not.mpr d2).mp hdone1
      have hg1 : 1 ≤ R1.2.1 := by
        rw [d1]
        omega
      obtain ⟨i1, i2, i3, i4, i5, i6, i7, i8, i9⟩ :=
        extend_indir_spec A R1.1 R1.2.1
          (by rw [d5]; exact hwf.2.1) (by rw [d6]; exact hwf.2.2.1) hg1
      simp only [d5] at i1 i2
      set R2 := extend_indir A (INDIR_BLOCKS + 1) R1.1 R1.2.1 with hR2
      by_cases hdone2 : R2.2.2 = true
      · rw [if_pos hdone2]
        have hle2 := i2.mp hdone2
        rw [d1] at hle2
        obtain ⟨w1, w2, w3, w4⟩ := extend_writeback_spec R2.1 nl
        have hcap : NN - capRem st.d = 0 := by
          unfold capRem
          omega
        refine ⟨_, _, rfl, ?_, w2, w3.trans (i4.trans d4), (i4.trans d4) ▸ w4⟩
        rw [hcap]
        simp
      · rw [if_neg hdone2]
        have hnd2 := (not_iff_not.mpr i2).mp hdone2
        rw [d1] at hnd2
        have hg2 : 1 ≤ R2.2.1 := by
          rw [i1, d1]
          omega
        obtain ⟨dd1, dd2, dd3, dd4, dd5⟩ :=
          extend_dindir_spec A R2.1 R2.2.1
            (by rw [i6, d7]; exact hwf.2.2.2.1) (by rw [i7, d8]; exact hwf.2.2.2.2.1)
            (by rw [i8, d9]; exact hwf.2.2.2.2.2.1) hg2
        simp only [i6, d7] at dd1 dd2
        set R3 := extend_dindir A (DINDIR_BLOCKS + 1) R2.1 R2.2.1 with hR3
        by_cases hdone3 : R3.2.2 = true
        · rw [if_pos hdone3]
          have hle3 := dd2.mp hdone3
          rw [i1, d1] at hle3
          obtain ⟨w1, w2, w3, w4⟩ := extend_writeback_spec R3.1 nl
          have hcap : NN - capRem st.d = 0 := by
            unfold capRem
            omega
          refine ⟨_, _, rfl, ?_, w2, w3.trans (dd4.trans (i4.trans d4)),
            (dd4.trans (i4.trans d4)) ▸ w4⟩
          rw [hcap]
          simp
        · rw [if_neg hdone3]
          have hnd3 := (not_iff_not.mpr dd2).mp hdone3
          rw [i1, d1] at hnd3
          have hn3 : R3.2.1 = NN - capRem st.d := by
            rw [dd1, i1, d1]
            unfold capRem
            omega
          have hval : toInt32 (sub32 (u32ofInt nl) ((NN - capRem st.d) * BLOCK_SECTOR_SIZE)) =
              nl - 512 * ((NN - capRem st.d : Nat) : Int) := by
            have hBS : (BLOCK_SECTOR_SIZE : Nat) = 512 := rfl
            rw [hBS]
            have hcapb : (st.d.length.toNat + 511) / 512 + capRem st.d ≤ 16524 := hBnd.2.1
            have hcap1 : 1 ≤ (st.d.length.toNat + 511) / 512 + capRem st.d := hBnd.2.2
            have hbound : (NN - capRem st.d) * 512 ≤ nl.toNat := by
              rw [hNN]
              omega
            rw [u32ofInt_eq nl h0n (by omega)]
            rw [sub32_eq _ _ hbound (by omega)]
            rw [toInt32_eq _ (by omega)]
            omega
          obtain ⟨w1, w2, w3, w4⟩ := extend_writeback_spec R3.1
            (toInt32 (sub32 (u32ofInt nl) (R3.2.1 * BLOCK_SECTOR_SIZE)))
          refine ⟨_, _, rfl, ?_, w2, w3.trans (dd4.trans (i4.trans d4)),
            (dd4.trans (i4.trans d4)) ▸ w4⟩
          rw [hn3]
          exact hval

theorem sub32_wrap (a b : Nat) (h : a < b) (hb : b < 2 ^ 32) (ha : a < 2 ^ 32) :
    sub32 a b = 2 ^ 32 - (b - a) := by
  unfold sub32
  have hu : (U32MOD : Nat) = 4294967296 := by norm_num [U32MOD]
  rw [hu]
  omega

/-- C2: for every well-formed `inode_disk` and every `new_length` at least
its current length, `dinode_extend` succeeds; it writes the record back to
the inode's own sector and leaves `length` equal to the returned value; if
the index tree could supply all required sectors the result is
`new_length`, and if it ran out partway the result is
`new_length − remaining_needed · 512` where `remaining_needed` is the sector
count still missing (needed minus remaining capacity). -/
theorem C2_dinode_extend_contract (A : Nat → Option Nat) (st : ExtSt) (nl : Int)
    (hwf : WF st.d) (hle : st.d.length ≤ nl) (hub : nl < 2 ^ 31) :
    ∃ st' r, dinode_extend A st nl = some (st', r) ∧
      st'.d.length = r ∧ st'.dinodes st.d.sector = st'.d ∧
      ((nl.toNat + 511) / 512 - (st.d.length.toNat + 511) / 512 ≤ capRem st.d → r = nl) ∧
      (capRem st.d < (nl.toNat + 511) / 512 - (st.d.length.toNat + 511) / 512 →
        r = nl - 512 * ((((nl.toNat + 511) / 512 - (st.d.length.toNat + 511) / 512) -
          capRem st.d : Nat) : Int)) := by
  obtain ⟨st', r, h1, h2, h3, h4, h5⟩ := dinode_extend_master A st nl hwf hle hub
  refine ⟨st', r, h1, h3, h4 ▸ h5, ?_, fun _ => h2⟩
  intro hcap
  rw [h2]
  have hz : ((nl.toNat + 511) / 512 - (st.d.length.toNat + 511) / 512) - capRem st.d = 0 := by
    omega
  rw [hz]
  simp

/-- Witness for C2 on a fresh inode extended to 512 bytes. -/
theorem C2_dinode_extend_contract_witness :
    ∃ st' r, dinode_extend seqA st0 512 = some (st', r) ∧
      st'.d.length = r ∧ st'.dinodes st0.d.sector = st'.d ∧
      (((512 : Int).toNat + 511) / 512 - (st0.d.length.toNat + 511) / 512 ≤ capRem st0.d →
        r = 512) ∧
      (capRem st0.d < ((512 : Int).toNat + 511) / 512 - (st0.d.length.toNat + 511) / 512 →
        r = 512 - 512 * (((((512 : Int).toNat + 511) / 512 - (st0.d.length.toNat + 511) / 512) -
          capRem st0.d : Nat) : Int)) :=
  C2_dinode_extend_contract seqA st0 512 (by unfold WF; decide) (by decide) (by decide)

/-- C10: `new_data_sectors` has type `size_t`, so the guarding
`ASSERT (new_data_sectors >= 0)` holds for every input — the model's
compiled assert can never produce the failure value — and `dinode_extend`
never rejects a shrinking `new_length`; for such a call the needed-sector
count wraps around to the huge value 2^32 − (old sectors − new sectors)
instead of being negative. -/
theorem C10_extend_assert_vacuous (A : Nat → Option Nat) (st : ExtSt) (nl : Int) :
    dinode_extend A st nl ≠ none ∧
    (0 : Int) ≤ (extend_needed st.d nl : Int) ∧
    (0 ≤ nl → nl < 2 ^ 31 → 0 ≤ st.d.length → st.d.length < 2 ^ 31 →
      (nl.toNat + 511) / 512 < (st.d.length.toNat + 511) / 512 →
      extend_needed st.d nl =
        2 ^ 32 - ((st.d.length.toNat + 511) / 512 - (nl.toNat + 511) / 512)) := by
  refine ⟨?_, by positivity, ?_⟩
  · simp only [dinode_extend]
    rw [if_neg (by omega : ¬ ((sub32 (bytes_to_total_sectors nl)
        (bytes_to_total_sectors st.d.length) : Nat) : Int) < 0)]
    split_ifs <;> simp
  · intro h0 h1 h2 h3 hlt
    unfold extend_needed
    rw [bytes_to_total_sectors_eq nl h0 h1, bytes_to_total_sectors_eq st.d.length h2 h3]
    exact sub32_wrap _ _ hlt (by omega) (by omega)

/-- Witness for C10: shrinking a fully grown file (16524 sectors) to length
0 is not rejected, and the wrapped count is 2^32 − 16524. -/
theorem C10_extend_assert_vacuous_witness :
    dinode_extend seqA stFull 0 ≠ none ∧
    (0 : Int) ≤ (extend_needed stFull.d 0 : Int) ∧
    (0 ≤ (0 : Int) → (0 : Int) < 2 ^ 31 → 0 ≤ stFull.d.length → stFull.d.length < 2 ^ 31 →
      ((0 : Int).toNat + 511) / 512 < (stFull.d.length.toNat + 511) / 512 →
      extend_needed stFull.d 0 =
        2 ^ 32 - ((stFull.d.length.toNat + 511) / 512 - ((0 : Int).toNat + 511) / 512)) :=
  C10_extend_assert_vacuous seqA stFull 0

/-- C9 counterexample: a reachable mid-extension state whose usage counters
are strictly below their maxima (10 of 128 single-indirect slots, 119 of
128 level-2 slots) still yields a short return — requesting one extra
sector gives back 71681 < 72193 — so a return below the request does not
require the completely full tree the claim describes. -/
theorem C9_counterexample :
    (dinode_extend seqA stMid 72193).map Prod.snd = some 71681 ∧
    (71681 : Int) < 72193 ∧
    stMid.d.indir_curr_usage = 10 ∧
    stMid.d.dindir_lv2_curr_usage = 119 ∧
    stMid.d.indir_curr_usage ≠ INDIR_BLOCK_PTRS ∧
    stMid.d.dindir_lv2_curr_usage ≠ INDIR_BLOCK_PTRS := by
  exact ⟨by decide, by decide, by decide, by decide, by decide, by decide⟩

/-- C9 as amended: `dinode_extend` returns strictly less than `new_length`
exactly when the needed sector count exceeds the capacity this call can
still insert — `(12 − dir_cnt)` direct slots, plus 128 when
`indir_cnt = 0`, plus 128·128 when `dindir_cnt = 0` (`capRem`); the usage
counters of already-allocated indirect blocks contribute nothing, so a
short return can happen with counters below their maxima.  Moreover the
boolean results of `free_map_allocate` are discarded, so the returned
length is identical under every allocation oracle: free-map exhaustion
never causes a short return or any other reported error. -/
theorem C9_short_return_iff (A B : Nat → Option Nat) (st : ExtSt) (nl : Int)
    (hwf : WF st.d) (hle : st.d.length ≤ nl) (hub : nl < 2 ^ 31) :
    ∃ rA rB : Int, (dinode_extend A st nl).map Prod.snd = some rA ∧
      (dinode_extend B st nl).map Prod.snd = some rB ∧ rA = rB ∧
      (rA < nl ↔
        capRem st.d < (nl.toNat + 511) / 512 - (st.d.length.toNat + 511) / 512) := by
  obtain ⟨stA, rA, hA1, hA2, _, _, _⟩ := dinode_extend_master A st nl hwf hle hub
  obtain ⟨stB, rB, hB1, hB2, _, _, _⟩ := dinode_extend_master B st nl hwf hle hub
  refine ⟨rA, rB, by rw [hA1]; rfl, by rw [hB1]; rfl, by rw [hA2, hB2], ?_⟩
  rw [hA2]
  constructor
  · intro h
    by_contra hc
    push_neg at hc
    have hz : ((nl.toNat + 511) / 512 - (st.d.length.toNat + 511) / 512) - capRem st.d = 0 := by
      omega
    rw [hz] at h
    simp at h
  · intro h
    have hpos : 1 ≤ ((nl.toNat + 511) / 512 - (st.d.length.toNat + 511) / 512) - capRem st.d := by
      omega
    have : (1 : Int) ≤ ((((nl.toNat + 511) / 512 - (st.d.length.toNat + 511) / 512) -
        capRem st.d : Nat) : Int) := by exact_mod_cast hpos
    omega

/-- Witness for C9 at a fresh inode extended by one sector, compared under a
working allocator and an exhausted free map. -/
theorem C9_short_return_iff_witness :
    ∃ rA rB : Int, (dinode_extend seqA st0 512).map Prod.snd = some rA ∧
      (dinode_extend (fun _ => none) st0 512).map Prod.snd = some rB ∧ rA = rB ∧
      (rA < 512 ↔
        capRem st0.d < (((512 : Int).toNat + 511) / 512 - (st0.d.length.toNat + 511) / 512)) :=
  C9_short_return_iff seqA (fun _ => none) st0 512 (by unfold WF; decide) (by decide) (by decide)

/-- C5 counterexample: writing one byte at offset 8,460,288 — the maximum
file size — of a fully grown file does return −1, but the inode's length is
not unchanged: the partially committed extension shrinks it from 8,460,288
to 8,459,777. -/
theorem C5_counterexample :
    wrFull.map Prod.snd = some (-1) ∧
    stFull.d.length = 8460288 ∧
    (wrFull.getD (st0, 0)).1.d.length = 8459777 := by
  exact ⟨by decide, by decide, by decide⟩

/-- C5 as amended: for every well-formed inode and every write whose end
offset exceeds the index tree's 8,460,288-byte capacity, `inode_write_at`
returns −1, and the inode's length becomes the committed length reported by
`dinode_extend` — `new_length − remaining · 512` — which is never equal to
(and in general differs from) the length before the call. -/
theorem C5_write_past_max (A : Nat → Option Nat) (st : ExtSt) (deny : Int)
    (buffer : Nat → Nat) (size offset : Int)
    (hwf : WF st.d) (hdeny : deny = 0) (hsz : 0 < size) (hoff : 0 ≤ offset)
    (hub : offset + size < 2 ^ 31) (hmax : 8460288 < offset + size) :
    ∃ st', inode_write_at A st deny buffer size offset = some (st', -1) ∧
      st'.d.length = (offset + size) -
        512 * ((((offset + size).toNat + 511) / 512 - (st.d.length.toNat + 511) / 512 -
          capRem st.d : Nat) : Int) ∧
      st'.d.length ≠ offset + size := by
  have hBnd := WF_bounds st.d hwf
  have h0L : 0 ≤ st.d.length := hwf.2.2.2.2.2.2.1
  have hlen : st.d.length < offset + size := by omega
  obtain ⟨st1, r, h1, h2, h3, h4, h5⟩ :=
    dinode_extend_master A st (offset + size) hwf (le_of_lt hlen) hub
  have hbig : (st.d.length.toNat + 511) / 512 + capRem st.d ≤ 16524 := hBnd.2.1
  have hrem : 1 ≤ ((offset + size).toNat + 511) / 512 - (st.d.length.toNat + 511) / 512 -
      capRem st.d := by
    have : 16525 ≤ ((offset + size).toNat + 511) / 512 := by omega
    omega
  have hrlt : r < offset + size := by
    rw [h2]
    have : (1 : Int) ≤ ((((offset + size).toNat + 511) / 512 - (st.d.length.toNat + 511) / 512 -
        capRem st.d : Nat) : Int) := by exact_mod_cast hrem
    omega
  unfold inode_write_at
  rw [if_neg (by omega : ¬ deny ≠ 0)]
  rw [if_pos (by omega : offset + size > st.d.length)]
  rw [h1]
  simp only
  rw [if_pos ?hne]
  case hne =>
    show ¬ ({ st1 with d := { st1.d with length := r } } : ExtSt).d.length = offset + size
    show ¬ r = offset + size
    omega
  have hself : ({ st1 with d := { st1.d with length := r } } : ExtSt).d.length = r := rfl
  refine ⟨{ st1 with d := { st1.d with length := r } }, rfl, ?_, ?_⟩
  · rw [hself, h2]
  · rw [hself]
    omega

/-- Witness for C5 as amended, at the fully grown file and a one-byte write
at offset 8,460,288. -/
theorem C5_write_past_max_witness :
    ∃ st', inode_write_at seqA stFull 0 (fun _ => 89) 1 8460288 = some (st', -1) ∧
      st'.d.length = ((8460288 : Int) + 1) -
        512 * (((((8460288 : Int) + 1).toNat + 511) / 512 - (stFull.d.length.toNat + 511) / 512 -
          capRem stFull.d : Nat) : Int) ∧
      st'.d.length ≠ (8460288 : Int) + 1 := by
  have h := C5_write_past_max seqA stFull 0 (fun _ => 89) 1 8460288
    (by unfold WF; decide) rfl (by decide) (by decide) (by decide) (by decide)
  exact h

/-- C6: the hole left by a write past the end does not read back as zeros.
A fresh file is grown to 6656 bytes (12 direct sectors plus one
single-indirect slot, as `inode_create` produces), then one byte is written
at offset 7168.  The write succeeds (returns 1) and the length becomes
7169, but because the single-indirect loop of `dinode_extend` is skipped —
its guard `indir_cnt < INDIR_BLOCKS` is already false — the two new sectors
are misplaced into the double-indirect tree.  `byte_to_sector` maps byte
6657 of the hole [6656, 7168) through the never-initialised entry 2 of the
single-indirect block, so `inode_read_at` returns the untouched disk marker
7777 instead of 0, and the mapped sector 7777 was never among the sectors
the extension zeroed. -/
theorem C6_hole_reads_garbage :
    (dinode_extend seqA st0 6656).map Prod.snd = some 6656 ∧
    st6656.d.length = 6656 ∧ st6656.d.indir_cnt = 1 ∧ st6656.d.indir_curr_usage = 1 ∧
    wr7168.map Prod.snd = some 1 ∧
    st7168.d.length = 7169 ∧
    st7168.d.dindir_cnt = 1 ∧ st7168.d.indir_curr_usage = 1 ∧
    byte_to_sector st7168.dmap st7168.d 6657 = some 7777 ∧
    (inode_read_at st7168 (fun _ => 0) 1 6657).2 = 1 ∧
    (inode_read_at st7168 (fun _ => 0) 1 6657).1 0 = 7777 ∧
    7777 ∉ st7168.zeroed := by
  exact ⟨by decide, by decide, by decide, by decide, by decide, by decide, by decide, by decide,
    by decide, by decide, by decide, by decide⟩

/-- C4: the failing `removed` check of `get_dir` leaks the held directory
handle.  Directory "a" (sector 2) is open once and already removed;
resolving "/a/b" fails as it should, but the walk's `inode_open` of sector
2 is never undone — `get_dir` returns NULL without `dir_close` — so the
open count of sector 2 ends at 2 instead of the 1 it started with. -/
theorem C4_removed_error_leaks_handle :
    gdAB.1 = none ∧
    (tableFind 2 fsAB.table).map (fun i => i.open_cnt) = some 1 ∧
    (tableFind 2 gdAB.2.table).map (fun i => i.open_cnt) = some 2 := by
  exact ⟨by decide, by decide, by decide⟩

theorem updateFirst_map_eq {α β : Type} (p : α → Bool) (f : α → α) (g : α → β)
    (hg : ∀ x, g (f x) = g x) : ∀ l : List α, (updateFirst p f l).map g = l.map g := by
  intro l
  induction l with
  | nil => rfl
  | cons x xs ih =>
    by_cases hp : p x
    · simp [updateFirst, hp, hg]
    · simp [updateFirst, hp, ih]

theorem updateFirst_length {α : Type} (p : α → Bool) (f : α → α) :
    ∀ l : List α, (updateFirst p f l).length = l.length := by
  intro l
  induction l with
  | nil => rfl
  | cons x xs ih =>
    by_cases hp : p x
    · simp [updateFirst, hp]
    · simp [updateFirst, hp, ih]

theorem eraseFirstP_sublist {α : Type} (p : α → Bool) :
    ∀ l : List α, (eraseFirstP p l).Sublist l := by
  intro l
  induction l with
  | nil => exact List.Sublist.refl []
  | cons x xs ih =>
    by_cases hp : p x
    · simp only [eraseFirstP, hp, if_true]
      exact List.sublist_cons_self x xs
    · simp only [eraseFirstP, hp, if_false]
      exact List.Sublist.cons₂ x ih

theorem find?_updateFirst {α : Type} (p : α → Bool) (f : α → α)
    (hf : ∀ x, p (f x) = p x) : ∀ l : List α,
    (updateFirst p f l).find? p = (l.find? p).map f := by
  intro l
  induction l with
  | nil => rfl
  | cons x xs ih =>
    by_cases hp : p x
    · simp [updateFirst, hp, List.find?_cons, hf]
    · simp [updateFirst, hp, List.find?_cons, ih]

theorem inode_open_found (s : Nat) (fs : FsSt) (m : Inode)
    (hf : tableFind s fs.table = some m) :
    inode_open s fs = { fs with table := updateFirst (fun i : Inode => i.sector == s) (fun i => { i with open_cnt := i.open_cnt + 1 }) fs.table } := by
  unfold inode_open
  rw [hf]

theorem inode_close_table (s : Nat) (fs : FsSt) (m : Inode)
    (hf : tableFind s fs.table = some m) :
    (inode_close s fs).table =
      (if m.open_cnt - 1 = 0 then eraseFirstP (fun i : Inode => i.sector == s) fs.table
       else updateFirst (fun i : Inode => i.sector == s)
         (fun i => { i with open_cnt := i.open_cnt - 1 }) fs.table) := by
  unfold inode_close
  rw [hf]
  by_cases hz : m.open_cnt - 1 = 0
  · simp only [if_pos hz]
    by_cases hr : m.removed = true
    · simp only [if_pos hr]
    · simp only [if_neg hr]
  · simp only [if_neg hz]

theorem TableInv_step (fs : FsSt) (op : InodeOp) (h : TableInv fs) :
    TableInv (inodeStep fs op) := by
  have hsec : ∀ (g : Inode → Inode), (∀ x, (g x).sector = x.sector) → ∀ s : Nat,
      ((updateFirst (fun i : Inode => i.sector == s) g fs.table).map
        (fun i => i.sector)).Nodup := by
    intro g hg s
    rw [updateFirst_map_eq (fun i : Inode => i.sector == s) g (fun i => i.sector) hg fs.table]
    exact h
  cases op with
  | iopen s =>
    show TableInv (inode_open s fs)
    cases hf : tableFind s fs.table with
    | some m =>
      unfold TableInv
      rw [inode_open_found s fs m hf]
      exact hsec (fun i => { i with open_cnt := i.open_cnt + 1 }) (fun x => rfl) s
    | none =>
      have he : inode_open s fs = { fs with table :=
          { sector := s, open_cnt := 1, removed := false, deny_write_cnt := 0,
            data := fs.dinodes s } :: fs.table } := by
        unfold inode_open
        rw [hf]
      unfold TableInv
      rw [he]
      simp only [List.map_cons]
      refine List.nodup_cons.2 ⟨?_, h⟩
      intro hmem
      obtain ⟨i, hi, hisec⟩ := List.mem_map.1 hmem
      have hne := List.find?_eq_none.1 hf i hi
      simp at hne
      exact hne hisec
  | ireopen s =>
    show TableInv (inode_reopen s fs)
    unfold TableInv inode_reopen
    exact hsec (fun i => { i with open_cnt := i.open_cnt + 1 }) (fun x => rfl) s
  | iclose s =>
    show TableInv (inode_close s fs)
    cases hf : tableFind s fs.table with
    | none =>
      have he : inode_close s fs = fs := by
        unfold inode_close
        rw [hf]
      rw [he]
      exact h
    | some m =>
      unfold TableInv
      rw [inode_close_table s fs m hf]
      by_cases hz : m.open_cnt - 1 = 0
      · rw [if_pos hz]
        exact List.Nodup.sublist (List.Sublist.map _ (eraseFirstP_sublist _ fs.table)) h
      · rw [if_neg hz]
        exact hsec (fun i => { i with open_cnt := i.open_cnt - 1 }) (fun x => rfl) s
  | iremove s =>
    show TableInv (inode_remove s fs)
    unfold TableInv inode_remove
    exact hsec (fun i => { i with removed := true }) (fun x => rfl) s

theorem TableInv_runOps (fs : FsSt) (h : TableInv fs) :
    ∀ ops : List InodeOp, TableInv (runOps fs ops) := by
  intro ops
  induction ops generalizing fs with
  | nil => exact h
  | cons op ops ih => exact ih (inodeStep fs op) (TableInv_step fs op h)

/-- C8: starting from the empty table, every sequence of inode-table calls
leaves at most one in-memory inode per on-disk sector; and `inode_open` on
a sector already in the table returns that same entry with its `open_cnt`
incremented in place — the table keeps its length (no new inode is
allocated) and the entry's `data` field is untouched (the sector is not
re-read from disk). -/
theorem C8_inode_table_unique (dm : Nat → Nat → Nat) (di : Nat → InodeDisk)
    (ops : List InodeOp) (fs : FsSt) (s : Nat) (m : Inode)
    (hm : tableFind s fs.table = some m) :
    TableInv (runOps { table := [], dmap := dm, dinodes := di, freed := [] } ops) ∧
    (inode_open s fs).table = updateFirst (fun i => i.sector == s)
      (fun i => { i with open_cnt := i.open_cnt + 1 }) fs.table ∧
    (inode_open s fs).table.length = fs.table.length ∧
    tableFind s (inode_open s fs).table = some { m with open_cnt := m.open_cnt + 1 } := by
  have he := inode_open_found s fs m hm
  refine ⟨TableInv_runOps _ (by unfold TableInv; simp) ops, ?_, ?_, ?_⟩
  · rw [he]
  · rw [he]
    exact updateFirst_length _ _ fs.table
  · rw [he]
    unfold tableFind at hm ⊢
    rw [find?_updateFirst (fun i : Inode => i.sector == s)
      (fun i => { i with open_cnt := i.open_cnt + 1 }) (fun x => rfl) fs.table, hm]
    rfl

/-- Witness for C8: two opens of sector 5 from the empty table, and a third
open against a table already holding sector 5 with `open_cnt = 2`. -/
theorem C8_inode_table_unique_witness :
    TableInv (runOps { table := [], dmap := fun _ _ => 0, dinodes := fun s => freshD s, freed := [] } [InodeOp.iopen 5, InodeOp.iopen 5]) ∧
    (inode_open 5 fsOpen5).table = updateFirst (fun i => i.sector == 5)
      (fun i => { i with open_cnt := i.open_cnt + 1 }) fsOpen5.table ∧
    (inode_open 5 fsOpen5).table.length = fsOpen5.table.length ∧
    tableFind 5 (inode_open 5 fsOpen5).table =
      some { sector := 5, open_cnt := 2 + 1, removed := false, deny_write_cnt := 0, data := freshD 5 } :=
  C8_inode_table_unique (fun _ _ => 0) (fun s => freshD s) [InodeOp.iopen 5, InodeOp.iopen 5]
    fsOpen5 5
    { sector := 5, open_cnt := 2, removed := false, deny_write_cnt := 0, data := freshD 5 } rfl

theorem inode_close_found (s : Nat) (fs : FsSt) (m : Inode)
    (hf : tableFind s fs.table = some m) :
    inode_close s fs =
      (if m.open_cnt - 1 = 0 then
        (if m.removed then
          { fs with table := eraseFirstP (fun i : Inode => i.sector == s) fs.table, freed := fs.freed ++ s :: (dinode_free fs.dmap m.data).2 }
         else { fs with table := eraseFirstP (fun i : Inode => i.sector == s) fs.table })
       else { fs with table := updateFirst (fun i : Inode => i.sector == s) (fun i => { i with open_cnt := i.open_cnt - 1 }) fs.table }) := by
  unfold inode_close
  rw [hf]

/-- C3: sectors are handed back to the free map only by the `inode_close`
that drops `open_cnt` to zero on an inode whose `removed` flag is set; that
call releases the inode's own sector followed by every data and index
sector `dinode_free` walks.  `inode_open`, `inode_reopen`, any other
`inode_close`, and `inode_remove` release nothing — `inode_remove` only
marks the first matching table entry removed. -/
theorem C3_release_only_on_last_close (fs : FsSt) (s : Nat) :
    (inode_open s fs).freed = fs.freed ∧
    (inode_reopen s fs).freed = fs.freed ∧
    (inode_remove s fs).freed = fs.freed ∧
    (inode_remove s fs).table = updateFirst (fun i => i.sector == s)
      (fun i => { i with removed := true }) fs.table ∧
    (tableFind s fs.table = none → (inode_close s fs).freed = fs.freed) ∧
    (∀ m, tableFind s fs.table = some m →
      ((m.open_cnt = 1 ∧ m.removed = true) →
        (inode_close s fs).freed = fs.freed ++ s :: (dinode_free fs.dmap m.data).2) ∧
      ((m.open_cnt ≠ 1 ∨ m.removed = false) → (inode_close s fs).freed = fs.freed)) := by
  refine ⟨?_, rfl, rfl, rfl, ?_, ?_⟩
  · unfold inode_open
    cases hf : tableFind s fs.table with
    | some m => rfl
    | none => rfl
  · intro hf
    have he : inode_close s fs = fs := by
      unfold inode_close
      rw [hf]
    rw [he]
  · intro m hf
    have he := inode_close_found s fs m hf
    constructor
    · rintro ⟨h1, hr⟩
      have hz : m.open_cnt - 1 = 0 := by omega
      rw [he, if_pos hz, if_pos (by rw [hr] : m.removed = true)]
    · intro hcase
      rcases hcase with h1 | hr
      · have hz : ¬ m.open_cnt - 1 = 0 := by omega
        rw [he, if_neg hz]
      · by_cases hz : m.open_cnt - 1 = 0
        · rw [he, if_pos hz, if_neg (by simp [hr])]
        · rw [he, if_neg hz]

/-- Witness for C3: a table holding sector 7 open once with `removed` set;
closing it releases sector 7 and the `dinode_free` walk of its record. -/
theorem C3_release_only_on_last_close_witness :
    (inode_open 7 fsRem7).freed = fsRem7.freed ∧
    (inode_close 7 fsRem7).freed =
      fsRem7.freed ++ 7 :: (dinode_free fsRem7.dmap (freshD 7)).2 :=
  ⟨(C3_release_only_on_last_close fsRem7 7).1,
   (((C3_release_only_on_last_close fsRem7 7).2.2.2.2.2
      { sector := 7, open_cnt := 1, removed := true, deny_write_cnt := 0, data := freshD 7 }
      rfl).1 ⟨rfl, rfl⟩)⟩
